import Mathlib

/-!
# Verification of the fornjot topological core

Shallow embedding, in Lean 4, of the parts of the fornjot B-Rep kernel that
the specification talks about:

* `ObjectSet` (`crates/fj-core/src/objects/object_set.rs`): an immutable,
  duplicate-free, insertion-ordered container of identity handles, with
  circular indexing, adjacent-pair iteration and a splice-style `replace`.
* The half-edge replacement engine
  (`crates/fj-core/src/operations/replace/half_edge.rs`): propagation of a
  half-edge substitution up through cycles, regions, sketches, faces, shells
  and solids, reusing unaffected subtrees by reference.
* The approximation engine (`crates/fj-kernel/src/algorithms/approx/solid.rs`)
  together with its identity+tolerance cache, and the sweep operation
  (`crates/fj-kernel/src/algorithms/sweep/sketch.rs`).

Rust panics are modelled as `Option.none`; `Option` results of fallible Rust
functions are modelled as a separate `Option` layer.  Mutable state
(`Services`, `ApproxCache`) is threaded explicitly.
-/

namespace Fornjot

/-- A storage handle: a shared reference to an object of kind `T`, compared,
ordered and hashed solely by its stable identity (`id`), never by payload
content.  Embeds `fj-core`'s `Handle<T>`. -/
structure Handle (T : Type) where
  id : Nat
  payload : T
  deriving Repr, DecidableEq

/-- An ordered set of objects: the data structure used by all objects that
reference multiple objects of the same type.  It contains no duplicate
elements and maintains insertion order.  Embeds `ObjectSet<T>` from
`object_set.rs`; the duplicate-freedom invariant is established by the
constructor `ObjectSet.new`, not by the type. -/
structure ObjectSet (T : Type) where
  inner : List (Handle T)
  deriving Repr, DecidableEq

namespace ObjectSet

variable {T : Type}

/-- The loop body of `ObjectSet::new`: walk the input, tracking the set of
identities already added; panic (modelled as `none`) on a duplicate. -/
def newGo : List (Handle T) → List Nat → Option (List (Handle T))
  | [], _ => some []
  | h :: rest, seen =>
    if h.id ∈ seen then
      none
    else
      (newGo rest (h.id :: seen)).map (h :: ·)

/-- `ObjectSet::new`: create an `ObjectSet` from a sequence of handles.
Panics (modelled as `none`) if the sequence contains duplicate handles
(duplicate identities, since handles are ordered by identity). -/
def new (handles : List (Handle T)) : Option (ObjectSet T) :=
  (newGo handles []).map ObjectSet.mk

/-- `ObjectSet::len`. -/
def len (s : ObjectSet T) : Nat :=
  s.inner.length

/-- `ObjectSet::is_empty`. -/
def isEmpty (s : ObjectSet T) : Bool :=
  s.inner.isEmpty

/-- `ObjectSet::nth`: the n-th item, or `none` when out of bounds. -/
def nth (s : ObjectSet T) (index : Nat) : Option (Handle T) :=
  s.inner.get? index

/-- `ObjectSet::nth_circular`: the n-th item, treating the index space as
circular.  Panics (modelled as `none`) if the set is empty; otherwise takes
the index modulo the length. -/
def nthCircular (s : ObjectSet T) (index : Nat) : Option (Handle T) :=
  if s.isEmpty then
    none
  else
    s.nth (index % s.len)

/-- `ObjectSet::index_of`: linear scan comparing identities. -/
def indexOf (s : ObjectSet T) (handle : Handle T) : Option Nat :=
  s.inner.findIdx? (fun h => h.id == handle.id)

/-- `ObjectSet::contains`: membership by identity. -/
def containsH (s : ObjectSet T) (handle : Handle T) : Bool :=
  (s.indexOf handle).isSome

/-- `ObjectSet::pairs`: the circularly-adjacent pairs of the contained
objects, via `circular_tuple_windows`: for elements `e0 … e_{n-1}` this is
`(e0,e1), (e1,e2), …, (e_{n-1},e0)`. -/
def pairs (s : ObjectSet T) : List (Handle T × Handle T) :=
  match s.inner with
  | [] => []
  | x :: xs => (x :: xs).zip (xs ++ [x])

/-- The scanning loop of `ObjectSet::replace`: everything before the first
handle whose identity matches `origId` is kept, that handle is excised and
`repl` spliced in, the rest is kept; `none` when no handle matches. -/
def spliceGo (origId : Nat) (repl : List (Handle T)) :
    List (Handle T) → Option (List (Handle T))
  | [] => none
  | h :: rest =>
    if h.id = origId then
      some (repl ++ rest)
    else
      (spliceGo origId repl rest).map (h :: ·)

/-- `ObjectSet::replace`: a new instance in which `original` has been
replaced by `replacements`.  The outer `Option` is Rust's `Option` (`none`
when `original` is not present); the inner `Option` models the panic of the
final `collect` (`ObjectSet::new`) when the spliced sequence contains a
duplicate identity.  The receiver is untouched. -/
def replace (s : ObjectSet T) (original : Handle T)
    (replacements : List (Handle T)) : Option (Option (ObjectSet T)) :=
  (spliceGo original.id replacements s.inner).map ObjectSet.new

end ObjectSet

/-! ## The object graph and the half-edge replacement engine

The engine itself (`operations/replace/half_edge.rs`) is part of the
excerpted sources and is embedded statement by statement.  The object-graph
types (`Cycle`, `Region`, `Sketch`, `Face`, `Shell`, `Solid`), the
`ReplaceOutput` helper and the store (`Services` / `Insert`) are not part of
the excerpt; they are modelled from the spec (§3, §4.1, §4.3): immutable
values composed of ordered object sets and identity handles, a store whose
`insert` assigns a fresh identity, and an `Unchanged`/`Updated` outcome
type.  Rust panics are modelled as `Option.none`; the mutable `Services`
reference is threaded explicitly. -/

/-- Modelled from the spec: the outcome of a replacement, either the
original object passed through unchanged or a newly built object
(`ReplaceOutput` of `operations/replace`, which is not in the excerpt). -/
inductive ReplaceOutput (O U : Type) where
  | original (o : O)
  | updated (u : U)
  deriving Repr, DecidableEq

/-- `ReplaceOutput::was_updated`. -/
def ReplaceOutput.wasUpdated {O U : Type} : ReplaceOutput O U → Bool
  | .original _ => false
  | .updated _ => true

/-- `ReplaceOutput::map_original`. -/
def ReplaceOutput.mapOriginal {O O2 U : Type} (f : O → O2) :
    ReplaceOutput O U → ReplaceOutput O2 U
  | .original o => .original (f o)
  | .updated u => .updated u

/-- Modelled from the spec: a half-edge.  Its content is never inspected by
the replacement engine, which compares identities only. -/
structure HalfEdge where
  payload : Nat
  deriving Repr, DecidableEq

/-- Modelled from the spec: a cycle is an ordered set of half-edges. -/
structure Cycle where
  halfEdges : ObjectSet HalfEdge
  deriving Repr, DecidableEq

/-- Modelled from the spec: a region is an exterior cycle, a set of
interior cycles, and a color. -/
structure Region where
  exterior : Handle Cycle
  interiors : ObjectSet Cycle
  color : Option Nat
  deriving Repr, DecidableEq

/-- Modelled from the spec: a sketch is a set of regions. -/
structure Sketch where
  regions : ObjectSet Region
  deriving Repr, DecidableEq

/-- Modelled from the spec: a face is a surface (opaque here) plus a
region. -/
structure Face where
  surface : Handle Nat
  region : Handle Region
  deriving Repr, DecidableEq

/-- Modelled from the spec: a shell is a set of faces. -/
structure Shell where
  faces : ObjectSet Face
  deriving Repr, DecidableEq

/-- Modelled from the spec: a solid is a set of shells. -/
structure Solid where
  shells : ObjectSet Shell
  deriving Repr, DecidableEq

/-- Modelled from the spec: the `Services` aggregate seen through `Insert`.
`insert` hands out a handle with a fresh identity and records the inserted
object in a per-kind log (the log stands for the canonical store's table,
so that theorems can speak about which objects a call inserted). -/
structure Services where
  nextId : Nat
  insertedCycles : List (Nat × Cycle)
  insertedRegions : List (Nat × Region)
  insertedFaces : List (Nat × Face)
  insertedShells : List (Nat × Shell)
  deriving Repr, DecidableEq

/-- `Insert for Cycle`: fresh identity, log the object. -/
def Services.insertCycle (s : Services) (c : Cycle) : Handle Cycle × Services :=
  (⟨s.nextId, c⟩, ⟨s.nextId + 1, (s.nextId, c) :: s.insertedCycles,
    s.insertedRegions, s.insertedFaces, s.insertedShells⟩)

/-- `Insert for Region`: fresh identity, log the object. -/
def Services.insertRegion (s : Services) (r : Region) :
    Handle Region × Services :=
  (⟨s.nextId, r⟩, ⟨s.nextId + 1, s.insertedCycles,
    (s.nextId, r) :: s.insertedRegions, s.insertedFaces, s.insertedShells⟩)

/-- `Insert for Face`: fresh identity, log the object. -/
def Services.insertFace (s : Services) (f : Face) : Handle Face × Services :=
  (⟨s.nextId, f⟩, ⟨s.nextId + 1, s.insertedCycles, s.insertedRegions,
    (s.nextId, f) :: s.insertedFaces, s.insertedShells⟩)

/-- `Insert for Shell`: fresh identity, log the object. -/
def Services.insertShell (s : Services) (sh : Shell) :
    Handle Shell × Services :=
  (⟨s.nextId, sh⟩, ⟨s.nextId + 1, s.insertedCycles, s.insertedRegions,
    s.insertedFaces, (s.nextId, sh) :: s.insertedShells⟩)

/-- `ReplaceHalfEdge for Cycle` (`half_edge.rs` lines 31–48): splice via
`ObjectSet::replace`; `Original` when the half-edge is absent.  The
`Services` argument is unused, as in the source (`_: &mut Services`). -/
def Cycle.replaceHalfEdge (c : Cycle) (original : Handle HalfEdge)
    (replacements : List (Handle HalfEdge)) (services : Services) :
    Option (ReplaceOutput Cycle Cycle × Services) :=
  match c.halfEdges.replace original replacements with
  | none => some (.original c, services)
  | some none => none
  | some (some halfEdges) => some (.updated ⟨halfEdges⟩, services)

/-- `ReplaceHalfEdge for Handle<Cycle>` (lines 224–237): delegate to the
bare object, putting the handle itself back in the `Original` case. -/
def replaceHalfEdgeHCycle (h : Handle Cycle) (original : Handle HalfEdge)
    (replacements : List (Handle HalfEdge)) (services : Services) :
    Option (ReplaceOutput (Handle Cycle) Cycle × Services) :=
  (h.payload.replaceHalfEdge original replacements services).map
    (fun p => (p.1.mapOriginal (fun _ => h), p.2))

/-- `cycle.map_updated(|updated| updated.insert(services)).into_inner()`:
keep an original handle as-is, insert an updated bare object. -/
def insertOutCycle (out : ReplaceOutput (Handle Cycle) Cycle)
    (s : Services) : Handle Cycle × Services :=
  match out with
  | .original h => (h, s)
  | .updated c => s.insertCycle c

/-- The `for cycle in self.interiors()` loop of `ReplaceHalfEdge for
Region` (lines 68–81): replace in each interior cycle, OR the update flags
together, insert updated cycles. -/
def Region.goInteriors (original : Handle HalfEdge)
    (replacements : List (Handle HalfEdge)) :
    List (Handle Cycle) → List (Handle Cycle) → Bool → Services →
      Option (List (Handle Cycle) × Bool × Services)
  | [], acc, hap, s => some (acc, hap, s)
  | ch :: rest, acc, hap, s =>
    match replaceHalfEdgeHCycle ch original replacements s with
    | none => none
    | some (out, s1) =>
      match insertOutCycle out s1 with
      | (h, s2) =>
        Region.goInteriors original replacements rest (acc ++ [h])
          (hap || out.wasUpdated) s2

/-- `ReplaceHalfEdge for Region` (lines 50–95). -/
def Region.replaceHalfEdge (r : Region) (original : Handle HalfEdge)
    (replacements : List (Handle HalfEdge)) (services : Services) :
    Option (ReplaceOutput Region Region × Services) :=
  match replaceHalfEdgeHCycle r.exterior original replacements services with
  | none => none
  | some (extOut, s1) =>
    match Region.goInteriors original replacements r.interiors.inner []
        extOut.wasUpdated s1 with
    | none => none
    | some (interiors, hap, s2) =>
      if hap then
        match insertOutCycle extOut s2 with
        | (extH, s3) => some (.updated ⟨extH, ⟨interiors⟩, r.color⟩, s3)
      else
        some (.original r, s2)

/-- `ReplaceHalfEdge for Handle<Region>` (lines 239–252). -/
def replaceHalfEdgeHRegion (h : Handle Region) (original : Handle HalfEdge)
    (replacements : List (Handle HalfEdge)) (services : Services) :
    Option (ReplaceOutput (Handle Region) Region × Services) :=
  (h.payload.replaceHalfEdge original replacements services).map
    (fun p => (p.1.mapOriginal (fun _ => h), p.2))

/-- `region.map_updated(|updated| updated.insert(services)).into_inner()`. -/
def insertOutRegion (out : ReplaceOutput (Handle Region) Region)
    (s : Services) : Handle Region × Services :=
  match out with
  | .original h => (h, s)
  | .updated r => s.insertRegion r

/-- The `for region in self.regions()` loop of `ReplaceHalfEdge for Sketch`
(lines 97–129). -/
def Sketch.goRegions (original : Handle HalfEdge)
    (replacements : List (Handle HalfEdge)) :
    List (Handle Region) → List (Handle Region) → Bool → Services →
      Option (List (Handle Region) × Bool × Services)
  | [], acc, hap, s => some (acc, hap, s)
  | rh :: rest, acc, hap, s =>
    match replaceHalfEdgeHRegion rh original replacements s with
    | none => none
    | some (out, s1) =>
      match insertOutRegion out s1 with
      | (h, s2) =>
        Sketch.goRegions original replacements rest (acc ++ [h])
          (hap || out.wasUpdated) s2

/-- `ReplaceHalfEdge for Sketch` (lines 97–129). -/
def Sketch.replaceHalfEdge (sk : Sketch) (original : Handle HalfEdge)
    (replacements : List (Handle HalfEdge)) (services : Services) :
    Option (ReplaceOutput Sketch Sketch × Services) :=
  match Sketch.goRegions original replacements sk.regions.inner [] false
      services with
  | none => none
  | some (regions, hap, s1) =>
    if hap then
      some (.updated ⟨⟨regions⟩⟩, s1)
    else
      some (.original sk, s1)

/-- `ReplaceHalfEdge for Face` (lines 131–155). -/
def Face.replaceHalfEdge (f : Face) (original : Handle HalfEdge)
    (replacements : List (Handle HalfEdge)) (services : Services) :
    Option (ReplaceOutput Face Face × Services) :=
  match replaceHalfEdgeHRegion f.region original replacements services with
  | none => none
  | some (regOut, s1) =>
    if regOut.wasUpdated then
      match insertOutRegion regOut s1 with
      | (regH, s2) => some (.updated ⟨f.surface, regH⟩, s2)
    else
      some (.original f, s1)

/-- `ReplaceHalfEdge for Handle<Face>` (lines 269–282). -/
def replaceHalfEdgeHFace (h : Handle Face) (original : Handle HalfEdge)
    (replacements : List (Handle HalfEdge)) (services : Services) :
    Option (ReplaceOutput (Handle Face) Face × Services) :=
  (h.payload.replaceHalfEdge original replacements services).map
    (fun p => (p.1.mapOriginal (fun _ => h), p.2))

/-- `face.map_updated(|updated| updated.insert(services)).into_inner()`. -/
def insertOutFace (out : ReplaceOutput (Handle Face) Face)
    (s : Services) : Handle Face × Services :=
  match out with
  | .original h => (h, s)
  | .updated f => s.insertFace f

/-- The `for face in self.faces()` loop of `ReplaceHalfEdge for Shell`
(lines 157–188). -/
def Shell.goFaces (original : Handle HalfEdge)
    (replacements : List (Handle HalfEdge)) :
    List (Handle Face) → List (Handle Face) → Bool → Services →
      Option (List (Handle Face) × Bool × Services)
  | [], acc, hap, s => some (acc, hap, s)
  | fh :: rest, acc, hap, s =>
    match replaceHalfEdgeHFace fh original replacements s with
    | none => none
    | some (out, s1) =>
      match insertOutFace out s1 with
      | (h, s2) =>
        Shell.goFaces original replacements rest (acc ++ [h])
          (hap || out.wasUpdated) s2

/-- `ReplaceHalfEdge for Shell` (lines 157–188). -/
def Shell.replaceHalfEdge (sh : Shell) (original : Handle HalfEdge)
    (replacements : List (Handle HalfEdge)) (services : Services) :
    Option (ReplaceOutput Shell Shell × Services) :=
  match Shell.goFaces original replacements sh.faces.inner [] false
      services with
  | none => none
  | some (faces, hap, s1) =>
    if hap then
      some (.updated ⟨⟨faces⟩⟩, s1)
    else
      some (.original sh, s1)

/-- `ReplaceHalfEdge for Handle<Shell>` (lines 284–297). -/
def replaceHalfEdgeHShell (h : Handle Shell) (original : Handle HalfEdge)
    (replacements : List (Handle HalfEdge)) (services : Services) :
    Option (ReplaceOutput (Handle Shell) Shell × Services) :=
  (h.payload.replaceHalfEdge original replacements services).map
    (fun p => (p.1.mapOriginal (fun _ => h), p.2))

/-- `shell.map_updated(|updated| updated.insert(services)).into_inner()`. -/
def insertOutShell (out : ReplaceOutput (Handle Shell) Shell)
    (s : Services) : Handle Shell × Services :=
  match out with
  | .original h => (h, s)
  | .updated sh => s.insertShell sh

/-- The `for shell in self.shells()` loop of `ReplaceHalfEdge for Solid`
(lines 190–222). -/
def Solid.goShells (original : Handle HalfEdge)
    (replacements : List (Handle HalfEdge)) :
    List (Handle Shell) → List (Handle Shell) → Bool → Services →
      Option (List (Handle Shell) × Bool × Services)
  | [], acc, hap, s => some (acc, hap, s)
  | shh :: rest, acc, hap, s =>
    match replaceHalfEdgeHShell shh original replacements s with
    | none => none
    | some (out, s1) =>
      match insertOutShell out s1 with
      | (h, s2) =>
        Solid.goShells original replacements rest (acc ++ [h])
          (hap || out.wasUpdated) s2

/-- `ReplaceHalfEdge for Solid` (lines 190–222). -/
def Solid.replaceHalfEdge (so : Solid) (original : Handle HalfEdge)
    (replacements : List (Handle HalfEdge)) (services : Services) :
    Option (ReplaceOutput Solid Solid × Services) :=
  match Solid.goShells original replacements so.shells.inner [] false
      services with
  | none => none
  | some (shells, hap, s1) =>
    if hap then
      some (.updated ⟨⟨shells⟩⟩, s1)
    else
      some (.original so, s1)

/-- Whether a cycle contains a half-edge with the given identity. -/
def Cycle.containsHE (c : Cycle) (i : Nat) : Bool :=
  c.halfEdges.inner.any (fun h => h.id == i)

/-- Whether a region contains, directly or transitively, a half-edge with
the given identity. -/
def Region.containsHE (r : Region) (i : Nat) : Bool :=
  r.exterior.payload.containsHE i ||
    r.interiors.inner.any (fun ch => ch.payload.containsHE i)

/-- Whether a sketch contains, transitively, a half-edge with the given
identity. -/
def Sketch.containsHE (sk : Sketch) (i : Nat) : Bool :=
  sk.regions.inner.any (fun rh => rh.payload.containsHE i)

/-- Whether a face contains, transitively, a half-edge with the given
identity. -/
def Face.containsHE (f : Face) (i : Nat) : Bool :=
  f.region.payload.containsHE i

/-- Whether a shell contains, transitively, a half-edge with the given
identity. -/
def Shell.containsHE (sh : Shell) (i : Nat) : Bool :=
  sh.faces.inner.any (fun fh => fh.payload.containsHE i)

/-- Whether a solid contains, transitively, a half-edge with the given
identity. -/
def Solid.containsHE (so : Solid) (i : Nat) : Bool :=
  so.shells.inner.any (fun shh => shh.payload.containsHE i)

/-! ## The approximation engine (fj-kernel)

`Approx for &Solid` (`algorithms/approx/solid.rs`) is in the excerpt:
a solid's approximation flat-maps its shells' approximations into one set,
threading the tolerance and the cache.  A shell's (and face's)
approximation and the `ApproxCache` are not in the excerpt; they are
modelled from the spec (§4.4): compositional union down to the
discretizing primitives, with a cache keyed by (object identity,
tolerance).  A call counter is threaded so that theorems can observe
recomputation. -/

/-- Modelled from the spec: the approximation of one face, a deterministic
value of the (face identity, tolerance) pair; represented by that key. -/
abbrev FaceApprox := Nat × Nat

/-- Modelled from the spec: the deterministic discretization of a face
identity under a tolerance. -/
def computeFaceApprox (faceId tolerance : Nat) : FaceApprox :=
  (faceId, tolerance)

/-- Modelled from the spec: a face as the approximation engine sees it. -/
structure AFace where
  id : Nat
  deriving Repr, DecidableEq

/-- Modelled from the spec: a shell, approximated as the union of its
faces' approximations. -/
structure AShell where
  faces : List AFace
  deriving Repr, DecidableEq

/-- The solid seen by `Approx for &Solid`: its shells. -/
structure ASolid where
  shells : List AShell
  deriving Repr, DecidableEq

/-- Modelled from the spec: the approximation cache, keyed by
(object identity, tolerance); process-lifetime, no eviction. -/
structure ApproxCache where
  entries : List ((Nat × Nat) × FaceApprox)
  deriving Repr, DecidableEq

/-- First-match lookup in a cache entry list. -/
def findEntry : List ((Nat × Nat) × FaceApprox) → (Nat × Nat) →
    Option FaceApprox
  | [], _ => none
  | e :: es, k => if e.1 = k then some e.2 else findEntry es k

/-- Cache lookup. -/
def ApproxCache.find (c : ApproxCache) (k : Nat × Nat) : Option FaceApprox :=
  findEntry c.entries k

/-- Whether the cache holds a value for the key. -/
def ApproxCache.hasKey (c : ApproxCache) (k : Nat × Nat) : Bool :=
  (c.find k).isSome

/-- A cache is valid when every entry maps its key to that key's computed
approximation (always true of caches produced by the engine). -/
def ApproxCache.Valid (c : ApproxCache) : Prop :=
  ∀ e ∈ c.entries, e.2 = computeFaceApprox e.1.1 e.1.2

/-- Modelled from the spec: approximate one face under a tolerance.  A
cache hit returns the cached value and performs 0 computations; a miss
computes, records the entry, and counts 1 computation. -/
def AFace.approxWithCache (f : AFace) (tolerance : Nat) (c : ApproxCache) :
    FaceApprox × ApproxCache × Nat :=
  match c.find (f.id, tolerance) with
  | some v => (v, c, 0)
  | none =>
    (computeFaceApprox f.id tolerance,
      ⟨((f.id, tolerance), computeFaceApprox f.id tolerance) :: c.entries⟩, 1)

/-- The face loop of the modelled shell approximation: union the face
approximations, thread the cache, sum the computation counts. -/
def AShell.goFaces (tolerance : Nat) :
    List AFace → Finset FaceApprox → ApproxCache → Nat →
      Finset FaceApprox × ApproxCache × Nat
  | [], acc, c, k => (acc, c, k)
  | f :: rest, acc, c, k =>
    match AFace.approxWithCache f tolerance c with
    | (v, c1, k1) => AShell.goFaces tolerance rest (insert v acc) c1 (k + k1)

/-- Modelled from the spec: a shell's approximation is the union of its
faces' approximations. -/
def AShell.approxWithCache (sh : AShell) (tolerance : Nat) (c : ApproxCache) :
    Finset FaceApprox × ApproxCache × Nat :=
  AShell.goFaces tolerance sh.faces ∅ c 0

/-- The shell loop of `Approx for &Solid`: flat-map the shells'
approximations into one set, threading the cache. -/
def ASolid.goShells (tolerance : Nat) :
    List AShell → Finset FaceApprox → ApproxCache → Nat →
      Finset FaceApprox × ApproxCache × Nat
  | [], acc, c, k => (acc, c, k)
  | sh :: rest, acc, c, k =>
    match sh.approxWithCache tolerance c with
    | (v, c1, k1) => ASolid.goShells tolerance rest (acc ∪ v) c1 (k + k1)

/-- `Approx for &Solid` (`approx/solid.rs` lines 9–23): collect the
flat-mapped shell approximations under the given tolerance and cache. -/
def ASolid.approxWithCache (so : ASolid) (tolerance : Nat) (c : ApproxCache) :
    Finset FaceApprox × ApproxCache × Nat :=
  ASolid.goShells tolerance so.shells ∅ c 0

/-- The pure (cache-independent) approximation of a shell. -/
def AShell.specApprox (sh : AShell) (tolerance : Nat) : Finset FaceApprox :=
  (sh.faces.map (fun f => computeFaceApprox f.id tolerance)).toFinset

/-- The pure (cache-independent) approximation of a solid: the union of its
shells' pure approximations. -/
def ASolid.specApprox (so : ASolid) (tolerance : Nat) : Finset FaceApprox :=
  so.shells.foldr (fun sh acc => sh.specApprox tolerance ∪ acc) ∅

/-! ## The sweep operation (fj-kernel)

`Sweep for Sketch` (`algorithms/sweep/sketch.rs`) is in the excerpt; the
face-level sweep (`Face::sweep`) and the `Solid` constructors are not, and
are modelled from the spec (§4.4): sweeping a face along a path constructs
one shell, purely. -/

/-- Modelled from the spec: a face of the 2D source topology. -/
structure SkFace where
  id : Nat
  deriving Repr, DecidableEq

/-- The sketch seen by `Sweep for Sketch`: its faces in iteration order
(`into_faces`). -/
structure SkSketch where
  faces : List SkFace
  deriving Repr, DecidableEq

/-- Modelled from the spec: a translation path vector. -/
abbrev PathVec := Int × Int × Int

/-- Modelled from the spec: the shell obtained by extruding one face along
a path (`Face::sweep`, purely constructive). -/
structure SwShell where
  sweptFrom : SkFace
  path : PathVec
  deriving Repr, DecidableEq

/-- Modelled from the spec: a swept solid, the ordered collection of its
shells. -/
structure SwSolid where
  shells : List SwShell
  deriving Repr, DecidableEq

/-- Modelled from the spec: `Face::sweep`. -/
def SkFace.sweepFace (f : SkFace) (path : PathVec) : SwShell :=
  ⟨f, path⟩

/-- Modelled from the spec: `Solid::new()`. -/
def SwSolid.new : SwSolid :=
  ⟨[]⟩

/-- Modelled from the spec: `Solid::with_shells`, appending the shells. -/
def SwSolid.withShells (so : SwSolid) (shs : List SwShell) : SwSolid :=
  ⟨so.shells ++ shs⟩

/-- `Sweep for Sketch` (`sweep/sketch.rs` lines 7–21): sweep each face of
the sketch along the path, pushing the resulting shells in face iteration
order; the result is `Solid::new().with_shells(shells)`. -/
def SkSketch.sweep (sk : SkSketch) (path : PathVec) : SwSolid :=
  SwSolid.new.withShells
    (sk.faces.foldl (fun acc f => acc ++ [f.sweepFace path]) [])

end Fornjot

namespace Fornjot

/- Sanity examples (concrete executions of the embedding). -/

example :
    ObjectSet.new [(⟨0, 7⟩ : Handle Nat), ⟨1, 8⟩] =
      some ⟨[⟨0, 7⟩, ⟨1, 8⟩]⟩ := by decide

example :
    ObjectSet.new [(⟨0, 7⟩ : Handle Nat), ⟨0, 8⟩] = none := by decide

example :
    (ObjectSet.mk [(⟨0, 7⟩ : Handle Nat), ⟨1, 8⟩, ⟨2, 9⟩]).nthCircular 4 =
      some ⟨1, 8⟩ := by decide

example :
    (ObjectSet.mk [(⟨0, 7⟩ : Handle Nat), ⟨1, 8⟩, ⟨2, 9⟩]).pairs =
      [(⟨0, 7⟩, ⟨1, 8⟩), (⟨1, 8⟩, ⟨2, 9⟩), (⟨2, 9⟩, ⟨0, 7⟩)] := by decide

example :
    (ObjectSet.mk [(⟨0, 7⟩ : Handle Nat), ⟨1, 8⟩, ⟨2, 9⟩]).replace ⟨1, 8⟩
        [⟨5, 0⟩, ⟨6, 1⟩] =
      some (some ⟨[⟨0, 7⟩, ⟨5, 0⟩, ⟨6, 1⟩, ⟨2, 9⟩]⟩) := by decide

example :
    (ObjectSet.mk [(⟨0, 7⟩ : Handle Nat), ⟨1, 8⟩]).replace ⟨3, 8⟩ [] =
      none := by decide

example :
    (ObjectSet.mk [(⟨0, 7⟩ : Handle Nat), ⟨1, 8⟩]).replace ⟨1, 8⟩ [⟨0, 5⟩] =
      some none := by decide

/-! ## Lemmas about `ObjectSet` -/

namespace ObjectSet

variable {T : Type}

theorem newGo_eq_some (l : List (Handle T)) : ∀ seen : List Nat,
    (l.map Handle.id).Nodup → (∀ h ∈ l, h.id ∉ seen) → newGo l seen = some l := by
  induction l with
  | nil => intro seen _ _; rfl
  | cons h rest ih =>
    intro seen hnd hdis
    rw [List.map_cons, List.nodup_cons] at hnd
    have hseen : h.id ∉ seen := hdis h (List.mem_cons_self h rest)
    have hrest : ∀ h' ∈ rest, h'.id ∉ h.id :: seen := by
      intro h' hmem
      rw [List.mem_cons]
      push_neg
      refine ⟨fun heq => hnd.1 ?_, hdis h' (List.mem_cons_of_mem h hmem)⟩
      exact heq ▸ List.mem_map_of_mem Handle.id hmem
    simp only [newGo, if_neg hseen, ih (h.id :: seen) hnd.2 hrest, Option.map_some']

theorem newGo_eq_none (l : List (Handle T)) : ∀ seen : List Nat,
    (¬ (l.map Handle.id).Nodup ∨ ∃ h ∈ l, h.id ∈ seen) → newGo l seen = none := by
  induction l with
  | nil =>
    intro seen hbad
    rcases hbad with hbad | ⟨h, hmem, _⟩
    · exact absurd List.nodup_nil hbad
    · exact absurd hmem (List.not_mem_nil h)
  | cons h rest ih =>
    intro seen hbad
    by_cases hseen : h.id ∈ seen
    · simp only [newGo, if_pos hseen]
    · have : ¬ (rest.map Handle.id).Nodup ∨ ∃ h' ∈ rest, h'.id ∈ h.id :: seen := by
        rcases hbad with hbad | ⟨h', hmem', hseen'⟩
        · rw [List.map_cons, List.nodup_cons] at hbad
          by_cases hmem2 : h.id ∈ rest.map Handle.id
          · rcases List.mem_map.mp hmem2 with ⟨h', hmem', heq⟩
            exact Or.inr ⟨h', hmem', by rw [heq]; exact List.mem_cons_self _ _⟩
          · refine Or.inl fun hnd => hbad ⟨hmem2, hnd⟩
        · rcases List.mem_cons.mp hmem' with rfl | hmem'
          · exact absurd hseen' hseen
          · exact Or.inr ⟨h', hmem', List.mem_cons_of_mem _ hseen'⟩
      simp only [newGo, if_neg hseen, ih (h.id :: seen) this, Option.map_none']

theorem new_eq_some (l : List (Handle T)) (hnd : (l.map Handle.id).Nodup) :
    new l = some ⟨l⟩ := by
  simp only [new, newGo_eq_some l [] hnd (fun h _ => List.not_mem_nil h.id),
    Option.map_some']

theorem new_eq_none (l : List (Handle T)) (hnd : ¬ (l.map Handle.id).Nodup) :
    new l = none := by
  simp only [new, newGo_eq_none l [] (Or.inl hnd), Option.map_none']

theorem new_eq_none_iff (l : List (Handle T)) :
    new l = none ↔ ¬ (l.map Handle.id).Nodup := by
  constructor
  · intro hnone hnd
    rw [new_eq_some l hnd] at hnone
    exact Option.noConfusion hnone
  · exact new_eq_none l

theorem spliceGo_eq_none_iff (i : Nat) (repl : List (Handle T)) (l : List (Handle T)) :
    spliceGo i repl l = none ↔ i ∉ l.map Handle.id := by
  induction l with
  | nil => simp [spliceGo]
  | cons h rest ih =>
    by_cases hh : h.id = i
    · simp [spliceGo, hh]
    · simp [spliceGo, hh, ih, Ne.symm hh]

theorem spliceGo_eq_some_of_mem (i : Nat) (repl : List (Handle T))
    (l : List (Handle T)) (hmem : i ∈ l.map Handle.id) :
    spliceGo i repl l =
      some (l.take (l.findIdx (fun h => h.id == i)) ++ repl ++
        l.drop (l.findIdx (fun h => h.id == i) + 1)) := by
  induction l with
  | nil => exact absurd hmem (List.not_mem_nil i)
  | cons h rest ih =>
    by_cases hh : h.id = i
    · simp [spliceGo, hh, List.findIdx_cons]
    · have hmem' : i ∈ rest.map Handle.id := by
        rcases List.mem_map.mp hmem with ⟨h', hmem', heq⟩
        rcases List.mem_cons.mp hmem' with rfl | hmem'
        · exact absurd heq hh
        · exact heq ▸ List.mem_map_of_mem Handle.id hmem'
      have hpred : (fun h' => h'.id == i) h = false := by
        simp [hh]
      simp only [spliceGo, if_neg hh, ih hmem', Option.map_some',
        List.findIdx_cons, hpred, cond_false]
      rw [List.take_succ_cons, List.drop_succ_cons, List.cons_append,
        List.cons_append]

theorem not_mem_take_append_drop {α : Type} [DecidableEq α] (ids : List α)
    (j : Nat) (hj : j < ids.length) (hnd : ids.Nodup) (a : α)
    (ha : ids.get ⟨j, hj⟩ = a) : a ∉ ids.take j ++ ids.drop (j + 1) := by
  intro hmem
  have hcount : ids.count a ≤ 1 := List.nodup_iff_count_le_one.mp hnd a
  have hdrop : ids.drop j = a :: ids.drop (j + 1) := by
    rw [List.drop_eq_getElem_cons hj]
    rw [List.get_eq_getElem] at ha
    rw [ha]
  have hsplit : ids.count a =
      (ids.take j).count a + ((ids.drop (j + 1)).count a + 1) := by
    conv_lhs => rw [← List.take_append_drop j ids, hdrop]
    rw [List.count_append, List.count_cons_self]
  rcases List.mem_append.mp hmem with h | h
  · have := List.count_pos_iff.mpr h
    omega
  · have := List.count_pos_iff.mpr h
    omega

theorem nodup_take_append_drop {α : Type} (ids : List α) (j : Nat)
    (hnd : ids.Nodup) : (ids.take j ++ ids.drop (j + 1)).Nodup := by
  have hsub : List.Sublist (ids.take j ++ ids.drop (j + 1)) ids := by
    conv_rhs => rw [← List.take_append_drop j ids]
    refine List.Sublist.append_left ?_ _
    rw [← List.tail_drop]
    exact List.tail_sublist _
  exact hnd.sublist hsub

end ObjectSet

/-! ## Theorems for the claims about `ObjectSet` -/

/-- C1: `ObjectSet::replace` returns `none` when `original` is absent by
identity; when present, it returns a new set equal to the original sequence
with `original` excised and the replacements spliced in at its position,
preserving the relative order of everything before and after; for a present
element, an empty replacement array yields a set one shorter with the
identity gone, and a one-element replacement array yields a set of the same
length with the replacement at the old position; the final `collect` panics
(inner `none`) when the spliced sequence contains a duplicate identity.
The receiver is a pure value: `replace` never mutates it. -/
theorem objectSet_replace_spec {T : Type} (s : ObjectSet T) (orig : Handle T)
    (repl : List (Handle T)) (r : Handle T) :
    (orig.id ∉ s.inner.map Handle.id → s.replace orig repl = none) ∧
    (orig.id ∈ s.inner.map Handle.id →
      s.replace orig repl =
        some (ObjectSet.new
          (s.inner.take (s.inner.findIdx (fun h => h.id == orig.id)) ++ repl ++
            s.inner.drop (s.inner.findIdx (fun h => h.id == orig.id) + 1)))) ∧
    ((s.inner.map Handle.id).Nodup → orig.id ∈ s.inner.map Handle.id →
      ∃ t : ObjectSet T, s.replace orig [] = some (some t) ∧
        t.len = s.len - 1 ∧ orig.id ∉ t.inner.map Handle.id) ∧
    ((s.inner.map Handle.id).Nodup → orig.id ∈ s.inner.map Handle.id →
      (r.id = orig.id ∨ r.id ∉ s.inner.map Handle.id) →
      ∃ t : ObjectSet T, s.replace orig [r] = some (some t) ∧
        t.len = s.len ∧
        t.nth (s.inner.findIdx (fun h => h.id == orig.id)) = some r) ∧
    (orig.id ∈ s.inner.map Handle.id →
      ¬ ((s.inner.take (s.inner.findIdx (fun h => h.id == orig.id)) ++ repl ++
          s.inner.drop (s.inner.findIdx (fun h => h.id == orig.id) + 1)).map
            Handle.id).Nodup →
      s.replace orig repl = some none) := by
  have hfind : ∀ _ : orig.id ∈ s.inner.map Handle.id,
      s.inner.findIdx (fun h => h.id == orig.id) < s.inner.length := by
    intro hm
    refine List.findIdx_lt_length_of_exists ?_
    rcases List.mem_map.mp hm with ⟨h, hmem, heq⟩
    exact ⟨h, hmem, by simp [heq]⟩
  refine ⟨?_, ?_, ?_, ?_, ?_⟩
  · intro habs
    simp only [ObjectSet.replace,
      (ObjectSet.spliceGo_eq_none_iff _ _ _).mpr habs, Option.map_none']
  · intro hmem
    simp only [ObjectSet.replace,
      ObjectSet.spliceGo_eq_some_of_mem orig.id repl s.inner hmem,
      Option.map_some']
  · intro hnd hmem
    have hjlt := hfind hmem
    set j := s.inner.findIdx (fun h => h.id == orig.id) with hjdef
    have hspl : s.replace orig [] =
        some (ObjectSet.new (s.inner.take j ++ s.inner.drop (j + 1))) := by
      simp only [ObjectSet.replace,
        ObjectSet.spliceGo_eq_some_of_mem orig.id [] s.inner hmem,
        Option.map_some', List.append_nil]
    have hids : (s.inner.take j ++ s.inner.drop (j + 1)).map Handle.id =
        (s.inner.map Handle.id).take j ++
          (s.inner.map Handle.id).drop (j + 1) := by
      rw [List.map_append, List.map_take, List.map_drop]
    have hnd' :
        ((s.inner.take j ++ s.inner.drop (j + 1)).map Handle.id).Nodup := by
      rw [hids]; exact ObjectSet.nodup_take_append_drop _ j hnd
    have hjlt' : j < (s.inner.map Handle.id).length := by
      rw [List.length_map]; exact hjlt
    refine ⟨⟨s.inner.take j ++ s.inner.drop (j + 1)⟩, ?_, ?_, ?_⟩
    · rw [hspl, ObjectSet.new_eq_some _ hnd']
    · simp only [ObjectSet.len, List.length_append, List.length_take,
        List.length_drop]
      omega
    · show orig.id ∉ (s.inner.take j ++ s.inner.drop (j + 1)).map Handle.id
      rw [hids]
      refine ObjectSet.not_mem_take_append_drop _ j hjlt' hnd orig.id ?_
      rw [List.get_eq_getElem, List.getElem_map]
      have hb := @List.findIdx_getElem _ (fun h => h.id == orig.id)
        s.inner hjlt
      simpa using hb
  · intro hnd hmem hr
    have hjlt := hfind hmem
    set j := s.inner.findIdx (fun h => h.id == orig.id) with hjdef
    have hspl : s.replace orig [r] =
        some (ObjectSet.new (s.inner.take j ++ [r] ++ s.inner.drop (j + 1))) := by
      simp only [ObjectSet.replace,
        ObjectSet.spliceGo_eq_some_of_mem orig.id [r] s.inner hmem,
        Option.map_some']
    have hjlt' : j < (s.inner.map Handle.id).length := by
      rw [List.length_map]; exact hjlt
    have hgetj : (s.inner.map Handle.id).get ⟨j, hjlt'⟩ = orig.id := by
      rw [List.get_eq_getElem, List.getElem_map]
      have hb := @List.findIdx_getElem _ (fun h => h.id == orig.id)
        s.inner hjlt
      simpa using hb
    have hids : (s.inner.take j ++ [r] ++ s.inner.drop (j + 1)).map Handle.id =
        (s.inner.map Handle.id).take j ++ r.id ::
          (s.inner.map Handle.id).drop (j + 1) := by
      simp [List.map_append, List.map_take, List.map_drop]
    have hnotmem : r.id ∉ (s.inner.map Handle.id).take j ++
        (s.inner.map Handle.id).drop (j + 1) := by
      rcases hr with hr | hr
      · rw [hr]
        exact ObjectSet.not_mem_take_append_drop _ j hjlt' hnd orig.id hgetj
      · intro hmem2
        rcases List.mem_append.mp hmem2 with h | h
        · exact hr (List.take_subset j _ h)
        · exact hr (List.drop_subset _ _ h)
    have hnd2 :
        ((s.inner.take j ++ [r] ++ s.inner.drop (j + 1)).map Handle.id).Nodup := by
      rw [hids]
      refine List.nodup_middle.mpr ?_
      rw [List.nodup_cons]
      exact ⟨hnotmem, ObjectSet.nodup_take_append_drop _ j hnd⟩
    have hlen_take : (s.inner.take j).length = j := by
      rw [List.length_take]; omega
    refine ⟨⟨s.inner.take j ++ [r] ++ s.inner.drop (j + 1)⟩, ?_, ?_, ?_⟩
    · rw [hspl, ObjectSet.new_eq_some _ hnd2]
    · simp only [ObjectSet.len, List.length_append, List.length_take,
        List.length_drop, List.length_singleton]
      omega
    · simp only [ObjectSet.nth]
      rw [List.append_assoc, List.get?_append_right (le_of_eq hlen_take),
        hlen_take, Nat.sub_self]
      rfl
  · intro hmem hbad
    simp only [ObjectSet.replace,
      ObjectSet.spliceGo_eq_some_of_mem orig.id repl s.inner hmem,
      Option.map_some', ObjectSet.new_eq_none _ hbad]

/-- C1 witness: concrete instantiations of `objectSet_replace_spec` covering
the absent, delete-one, replace-one and duplicate-panic cases. -/
theorem objectSet_replace_spec_witness :
    (ObjectSet.mk [(⟨0, 1⟩ : Handle Nat), ⟨1, 2⟩, ⟨2, 3⟩]).replace ⟨9, 9⟩
        [⟨5, 5⟩] = none ∧
    (∃ t : ObjectSet Nat,
      (ObjectSet.mk [(⟨0, 1⟩ : Handle Nat), ⟨1, 2⟩, ⟨2, 3⟩]).replace ⟨1, 2⟩ [] =
          some (some t) ∧
        t.len = 2 ∧ (1 : Nat) ∉ t.inner.map Handle.id) ∧
    (∃ t : ObjectSet Nat,
      (ObjectSet.mk [(⟨0, 1⟩ : Handle Nat), ⟨1, 2⟩, ⟨2, 3⟩]).replace ⟨1, 2⟩
          [⟨7, 4⟩] = some (some t) ∧
        t.len = 3 ∧ t.nth 1 = some ⟨7, 4⟩) ∧
    (ObjectSet.mk [(⟨0, 1⟩ : Handle Nat), ⟨1, 2⟩, ⟨2, 3⟩]).replace ⟨1, 2⟩
        [⟨2, 8⟩] = some none := by
  refine ⟨(objectSet_replace_spec ⟨[⟨0, 1⟩, ⟨1, 2⟩, ⟨2, 3⟩]⟩ ⟨9, 9⟩ [⟨5, 5⟩]
      ⟨7, 4⟩).1 (by decide),
    (objectSet_replace_spec ⟨[⟨0, 1⟩, ⟨1, 2⟩, ⟨2, 3⟩]⟩ ⟨1, 2⟩ [⟨5, 5⟩]
      ⟨7, 4⟩).2.2.1 (by decide) (by decide), ?_, ?_⟩
  · have h := (objectSet_replace_spec (⟨[⟨0, 1⟩, ⟨1, 2⟩, ⟨2, 3⟩]⟩ :
      ObjectSet Nat) ⟨1, 2⟩ [⟨5, 5⟩] ⟨7, 4⟩).2.2.2.1 (by decide) (by decide)
      (Or.inr (by decide))
    simpa using h
  · exact (objectSet_replace_spec (⟨[⟨0, 1⟩, ⟨1, 2⟩, ⟨2, 3⟩]⟩ :
      ObjectSet Nat) ⟨1, 2⟩ [⟨2, 8⟩] ⟨7, 4⟩).2.2.2.2 (by decide) (by decide)

/-- C4: `ObjectSet::new` applied to a sequence of handles with
pairwise-distinct identities succeeds, preserving length and insertion
order; it panics (modelled `none`) exactly when the input contains a
duplicate identity; and the empty sequence yields the empty set. -/
theorem objectSet_new_spec {T : Type} (hs : List (Handle T)) :
    ((hs.map Handle.id).Nodup →
      ∃ t : ObjectSet T, ObjectSet.new hs = some t ∧ t.inner = hs ∧
        t.len = hs.length) ∧
    (ObjectSet.new hs = none ↔ ¬ (hs.map Handle.id).Nodup) ∧
    ObjectSet.new ([] : List (Handle T)) = some ⟨[]⟩ := by
  refine ⟨fun hnd => ⟨⟨hs⟩, ObjectSet.new_eq_some hs hnd, rfl, rfl⟩,
    ObjectSet.new_eq_none_iff hs, ?_⟩
  rfl

/-- C4 witness: concrete instantiation of `objectSet_new_spec`. -/
theorem objectSet_new_spec_witness :
    (∃ t : ObjectSet Nat, ObjectSet.new [⟨0, 5⟩, ⟨1, 5⟩] = some t ∧
      t.inner = [⟨0, 5⟩, ⟨1, 5⟩] ∧ t.len = 2) ∧
    ObjectSet.new [(⟨3, 1⟩ : Handle Nat), ⟨3, 2⟩] = none := by
  refine ⟨(objectSet_new_spec [⟨0, 5⟩, ⟨1, 5⟩]).1 (by decide), ?_⟩
  exact (objectSet_new_spec [(⟨3, 1⟩ : Handle Nat), ⟨3, 2⟩]).2.1.mpr (by decide)

/-- C5: for a non-empty set, `nth_circular` is invariant under adding the
length to the index, returns the element at `index mod len` (in particular
it never panics); on an empty set it panics (modelled `none`). -/
theorem objectSet_nthCircular_spec {T : Type} (s : ObjectSet T) (i : Nat) :
    (s.inner ≠ [] →
      s.nthCircular i = s.nthCircular (i + s.len) ∧
      s.nthCircular i = s.inner.get? (i % s.len) ∧
      (s.nthCircular i).isSome) ∧
    (s.inner = [] → s.nthCircular i = none) := by
  constructor
  · intro hne
    have hlen : 0 < s.len := List.length_pos.mpr hne
    have hempty : s.isEmpty = false := by
      simp [ObjectSet.isEmpty, List.isEmpty_iff, hne]
    have hmod : (i + s.len) % s.len = i % s.len := Nat.add_mod_right i s.len
    refine ⟨?_, ?_, ?_⟩
    · simp [ObjectSet.nthCircular, hempty, hmod]
    · simp [ObjectSet.nthCircular, ObjectSet.nth, hempty]
    · have hlt : i % s.len < s.inner.length := Nat.mod_lt i hlen
      simp only [ObjectSet.nthCircular, hempty, Bool.false_eq_true, if_false,
        ObjectSet.nth]
      rw [List.get?_eq_get hlt]
      rfl
  · intro hemp
    simp [ObjectSet.nthCircular, ObjectSet.isEmpty, hemp]

/-- C6: for a non-empty set with elements `e0 … e_{n-1}`, `pairs` yields
exactly `n` pairs, the `k`-th pair being `(e_k, e_{(k+1) mod n})`; in
particular the second element of the last pair equals the first element of
the first pair (both are `e0`). -/
theorem objectSet_pairs_spec {T : Type} (s : ObjectSet T) (hne : s.inner ≠ []) :
    s.pairs.length = s.len ∧
    (∀ k, k < s.len → ∃ a b, s.pairs.get? k = some (a, b) ∧
      s.inner.get? k = some a ∧ s.inner.get? ((k + 1) % s.len) = some b) ∧
    s.pairs.getLast?.map Prod.snd = s.inner.head? ∧
    s.pairs.head?.map Prod.fst = s.inner.head? := by
  obtain ⟨x, xs, hinner⟩ := List.exists_cons_of_ne_nil hne
  have hpairs : s.pairs = (x :: xs).zip (xs ++ [x]) := by
    rw [ObjectSet.pairs, hinner]
  have hlen : s.len = xs.length + 1 := by
    rw [ObjectSet.len, hinner, List.length_cons]
  have hrotlen : (xs ++ [x]).length = xs.length + 1 := by
    rw [List.length_append, List.length_singleton]
  have hrot : ∀ k, k < xs.length + 1 →
      (xs ++ [x]).get? k = (x :: xs).get? ((k + 1) % (xs.length + 1)) := by
    intro k hk
    rcases Nat.lt_succ_iff_lt_or_eq.mp hk with hk' | rfl
    · rw [List.get?_append hk',
        Nat.mod_eq_of_lt (by exact Nat.succ_lt_succ hk'), List.get?_cons_succ]
    · rw [List.get?_append_right (Nat.le_refl _), Nat.sub_self,
        Nat.mod_self]
      rfl
  have hlength : s.pairs.length = s.len := by
    rw [hpairs, List.length_zip, List.length_cons, hrotlen, hlen,
      Nat.min_self]
  have helem : ∀ k, k < s.len → ∃ a b, s.pairs.get? k = some (a, b) ∧
      s.inner.get? k = some a ∧ s.inner.get? ((k + 1) % s.len) = some b := by
    intro k hk
    rw [hlen] at hk
    have hka : ((x :: xs).get? k).isSome := by
      rw [List.get?_eq_get (by simpa using hk)]
      rfl
    obtain ⟨a, ha⟩ := Option.isSome_iff_exists.mp hka
    have hkb : ((x :: xs).get? ((k + 1) % (xs.length + 1))).isSome := by
      rw [List.get?_eq_get (by simpa using Nat.mod_lt (k + 1) (Nat.succ_pos _))]
      rfl
    obtain ⟨b, hb⟩ := Option.isSome_iff_exists.mp hkb
    refine ⟨a, b, ?_, ?_, ?_⟩
    · rw [hpairs]
      exact (List.get?_zip_eq_some _ _ (a, b) k).mpr
        ⟨ha, by rw [hrot k hk]; exact hb⟩
    · rw [hinner]; exact ha
    · rw [hinner, hlen]; exact hb
  refine ⟨hlength, helem, ?_, ?_⟩
  · obtain ⟨a, b, hab, _, hb⟩ := helem (s.len - 1) (by rw [hlen]; omega)
    rw [List.getLast?_eq_get? s.pairs, hlength, hab]
    have : (s.len - 1 + 1) % s.len = 0 := by
      rw [hlen, Nat.succ_sub_one, Nat.mod_self]
    rw [this] at hb
    rw [hinner] at hb ⊢
    simp only [List.get?_cons_zero, Option.some.injEq] at hb
    simp [hb]
  · obtain ⟨a, b, hab, ha, _⟩ := helem 0 (by rw [hlen]; omega)
    rw [List.head?_eq_getElem?, ← List.get?_eq_getElem?, hab]
    rw [hinner] at ha ⊢
    simp only [List.get?_cons_zero, Option.some.injEq] at ha
    simp [ha]

/-- C6 witness: concrete instantiation of `objectSet_pairs_spec`. -/
theorem objectSet_pairs_spec_witness :
    (ObjectSet.mk [(⟨0, 1⟩ : Handle Nat), ⟨1, 2⟩, ⟨2, 3⟩]).pairs.length =
        (ObjectSet.mk [(⟨0, 1⟩ : Handle Nat), ⟨1, 2⟩, ⟨2, 3⟩]).len ∧
      (ObjectSet.mk [(⟨0, 1⟩ : Handle Nat), ⟨1, 2⟩, ⟨2, 3⟩]).pairs.getLast?.map
          Prod.snd =
        (ObjectSet.mk [(⟨0, 1⟩ : Handle Nat), ⟨1, 2⟩, ⟨2, 3⟩]).inner.head? := by
  have h := objectSet_pairs_spec
    (⟨[⟨0, 1⟩, ⟨1, 2⟩, ⟨2, 3⟩]⟩ : ObjectSet Nat) (by decide)
  exact ⟨h.1, h.2.2.1⟩

/-- C5 witness: concrete instantiation of `objectSet_nthCircular_spec`. -/
theorem objectSet_nthCircular_spec_witness :
    (ObjectSet.mk [(⟨0, 9⟩ : Handle Nat), ⟨1, 8⟩, ⟨2, 7⟩]).nthCircular 5 =
        (ObjectSet.mk [(⟨0, 9⟩ : Handle Nat), ⟨1, 8⟩, ⟨2, 7⟩]).nthCircular 8 ∧
      (ObjectSet.mk ([] : List (Handle Nat))).nthCircular 5 = none := by
  refine ⟨((objectSet_nthCircular_spec ⟨[⟨0, 9⟩, ⟨1, 8⟩, ⟨2, 7⟩]⟩ 5).1
    (by decide)).1, ?_⟩
  exact (objectSet_nthCircular_spec ⟨[]⟩ 5).2 rfl

/-! ## Lemmas about the replacement engine: the absent (Unchanged) case -/

theorem anyId_eq_false_iff {T : Type} (l : List (Handle T)) (i : Nat) :
    (l.any (fun h => h.id == i) = false) ↔ i ∉ l.map Handle.id := by
  rw [List.any_eq_false]
  constructor
  · intro hall hmem
    rcases List.mem_map.mp hmem with ⟨h, hm, heq⟩
    exact hall h hm (by simp [heq])
  · intro hnot h hm hbeq
    refine hnot ?_
    rw [beq_iff_eq] at hbeq
    exact hbeq ▸ List.mem_map_of_mem Handle.id hm

theorem cycle_replace_absent (c : Cycle) (orig : Handle HalfEdge)
    (repl : List (Handle HalfEdge)) (s : Services)
    (habs : c.containsHE orig.id = false) :
    c.replaceHalfEdge orig repl s = some (.original c, s) := by
  have hnone : c.halfEdges.replace orig repl = none := by
    rw [ObjectSet.replace, Option.map_eq_none']
    exact (ObjectSet.spliceGo_eq_none_iff _ _ _).mpr
      ((anyId_eq_false_iff _ _).mp habs)
  simp only [Cycle.replaceHalfEdge, hnone]

theorem hcycle_replace_absent (h : Handle Cycle) (orig : Handle HalfEdge)
    (repl : List (Handle HalfEdge)) (s : Services)
    (habs : h.payload.containsHE orig.id = false) :
    replaceHalfEdgeHCycle h orig repl s = some (.original h, s) := by
  rw [replaceHalfEdgeHCycle, cycle_replace_absent _ _ _ _ habs]
  rfl

theorem region_goInteriors_absent (orig : Handle HalfEdge)
    (repl : List (Handle HalfEdge)) (chs : List (Handle Cycle))
    (habs : ∀ ch ∈ chs, ch.payload.containsHE orig.id = false) :
    ∀ acc hap s, Region.goInteriors orig repl chs acc hap s =
      some (acc ++ chs, hap, s) := by
  induction chs with
  | nil => intro acc hap s; simp [Region.goInteriors]
  | cons ch rest ih =>
    intro acc hap s
    rw [Region.goInteriors,
      hcycle_replace_absent ch orig repl s (habs ch (List.mem_cons_self _ _))]
    show Region.goInteriors orig repl rest (acc ++ [ch]) (hap || false) s = _
    rw [Bool.or_false,
      ih (fun ch' hm => habs ch' (List.mem_cons_of_mem _ hm))]
    simp

theorem region_replace_absent (r : Region) (orig : Handle HalfEdge)
    (repl : List (Handle HalfEdge)) (s : Services)
    (habs : r.containsHE orig.id = false) :
    r.replaceHalfEdge orig repl s = some (.original r, s) := by
  rw [Region.containsHE, Bool.or_eq_false_iff] at habs
  obtain ⟨hext, hints⟩ := habs
  have hintseach : ∀ ch ∈ r.interiors.inner,
      ch.payload.containsHE orig.id = false := by
    rw [List.any_eq_false] at hints
    intro ch hm
    exact Bool.not_eq_true _ ▸ (Bool.eq_false_iff.mpr (hints ch hm))
  simp only [Region.replaceHalfEdge, hcycle_replace_absent _ _ _ _ hext,
    ReplaceOutput.wasUpdated,
    region_goInteriors_absent orig repl r.interiors.inner hintseach,
    List.nil_append, Bool.false_eq_true, if_false]

theorem hregion_replace_absent (h : Handle Region) (orig : Handle HalfEdge)
    (repl : List (Handle HalfEdge)) (s : Services)
    (habs : h.payload.containsHE orig.id = false) :
    replaceHalfEdgeHRegion h orig repl s = some (.original h, s) := by
  rw [replaceHalfEdgeHRegion, region_replace_absent _ _ _ _ habs]
  rfl

theorem sketch_goRegions_absent (orig : Handle HalfEdge)
    (repl : List (Handle HalfEdge)) (rhs : List (Handle Region))
    (habs : ∀ rh ∈ rhs, rh.payload.containsHE orig.id = false) :
    ∀ acc hap s, Sketch.goRegions orig repl rhs acc hap s =
      some (acc ++ rhs, hap, s) := by
  induction rhs with
  | nil => intro acc hap s; simp [Sketch.goRegions]
  | cons rh rest ih =>
    intro acc hap s
    rw [Sketch.goRegions,
      hregion_replace_absent rh orig repl s (habs rh (List.mem_cons_self _ _))]
    show Sketch.goRegions orig repl rest (acc ++ [rh]) (hap || false) s = _
    rw [Bool.or_false,
      ih (fun rh' hm => habs rh' (List.mem_cons_of_mem _ hm))]
    simp

theorem sketch_replace_absent (sk : Sketch) (orig : Handle HalfEdge)
    (repl : List (Handle HalfEdge)) (s : Services)
    (habs : sk.containsHE orig.id = false) :
    sk.replaceHalfEdge orig repl s = some (.original sk, s) := by
  have heach : ∀ rh ∈ sk.regions.inner,
      rh.payload.containsHE orig.id = false := by
    rw [Sketch.containsHE, List.any_eq_false] at habs
    intro rh hm
    exact Bool.not_eq_true _ ▸ (Bool.eq_false_iff.mpr (habs rh hm))
  simp only [Sketch.replaceHalfEdge,
    sketch_goRegions_absent orig repl sk.regions.inner heach,
    List.nil_append, Bool.false_eq_true, if_false]

theorem face_replace_absent (f : Face) (orig : Handle HalfEdge)
    (repl : List (Handle HalfEdge)) (s : Services)
    (habs : f.containsHE orig.id = false) :
    f.replaceHalfEdge orig repl s = some (.original f, s) := by
  simp only [Face.replaceHalfEdge, hregion_replace_absent _ _ _ _ habs,
    ReplaceOutput.wasUpdated, Bool.false_eq_true, if_false]

theorem hface_replace_absent (h : Handle Face) (orig : Handle HalfEdge)
    (repl : List (Handle HalfEdge)) (s : Services)
    (habs : h.payload.containsHE orig.id = false) :
    replaceHalfEdgeHFace h orig repl s = some (.original h, s) := by
  rw [replaceHalfEdgeHFace, face_replace_absent _ _ _ _ habs]
  rfl

theorem shell_goFaces_absent (orig : Handle HalfEdge)
    (repl : List (Handle HalfEdge)) (fhs : List (Handle Face))
    (habs : ∀ fh ∈ fhs, fh.payload.containsHE orig.id = false) :
    ∀ acc hap s, Shell.goFaces orig repl fhs acc hap s =
      some (acc ++ fhs, hap, s) := by
  induction fhs with
  | nil => intro acc hap s; simp [Shell.goFaces]
  | cons fh rest ih =>
    intro acc hap s
    rw [Shell.goFaces,
      hface_replace_absent fh orig repl s (habs fh (List.mem_cons_self _ _))]
    show Shell.goFaces orig repl rest (acc ++ [fh]) (hap || false) s = _
    rw [Bool.or_false,
      ih (fun fh' hm => habs fh' (List.mem_cons_of_mem _ hm))]
    simp

theorem shell_replace_absent (sh : Shell) (orig : Handle HalfEdge)
    (repl : List (Handle HalfEdge)) (s : Services)
    (habs : sh.containsHE orig.id = false) :
    sh.replaceHalfEdge orig repl s = some (.original sh, s) := by
  have heach : ∀ fh ∈ sh.faces.inner,
      fh.payload.containsHE orig.id = false := by
    rw [Shell.containsHE, List.any_eq_false] at habs
    intro fh hm
    exact Bool.not_eq_true _ ▸ (Bool.eq_false_iff.mpr (habs fh hm))
  simp only [Shell.replaceHalfEdge,
    shell_goFaces_absent orig repl sh.faces.inner heach,
    List.nil_append, Bool.false_eq_true, if_false]

theorem hshell_replace_absent (h : Handle Shell) (orig : Handle HalfEdge)
    (repl : List (Handle HalfEdge)) (s : Services)
    (habs : h.payload.containsHE orig.id = false) :
    replaceHalfEdgeHShell h orig repl s = some (.original h, s) := by
  rw [replaceHalfEdgeHShell, shell_replace_absent _ _ _ _ habs]
  rfl

theorem solid_goShells_absent (orig : Handle HalfEdge)
    (repl : List (Handle HalfEdge)) (shs : List (Handle Shell))
    (habs : ∀ shh ∈ shs, shh.payload.containsHE orig.id = false) :
    ∀ acc hap s, Solid.goShells orig repl shs acc hap s =
      some (acc ++ shs, hap, s) := by
  induction shs with
  | nil => intro acc hap s; simp [Solid.goShells]
  | cons shh rest ih =>
    intro acc hap s
    rw [Solid.goShells,
      hshell_replace_absent shh orig repl s (habs shh (List.mem_cons_self _ _))]
    show Solid.goShells orig repl rest (acc ++ [shh]) (hap || false) s = _
    rw [Bool.or_false,
      ih (fun shh' hm => habs shh' (List.mem_cons_of_mem _ hm))]
    simp

theorem solid_replace_absent (so : Solid) (orig : Handle HalfEdge)
    (repl : List (Handle HalfEdge)) (s : Services)
    (habs : so.containsHE orig.id = false) :
    so.replaceHalfEdge orig repl s = some (.original so, s) := by
  have heach : ∀ shh ∈ so.shells.inner,
      shh.payload.containsHE orig.id = false := by
    rw [Solid.containsHE, List.any_eq_false] at habs
    intro shh hm
    exact Bool.not_eq_true _ ▸ (Bool.eq_false_iff.mpr (habs shh hm))
  simp only [Solid.replaceHalfEdge,
    solid_goShells_absent orig repl so.shells.inner heach,
    List.nil_append, Bool.false_eq_true, if_false]

/-- C2: for every enclosing object kind (cycle, region, sketch, face,
shell, solid) and every half-edge handle that does not occur, directly or
transitively, in that object's subtree, `replace_half_edge` with any
replacement array returns the `Original` (Unchanged) outcome carrying an
object identity-equal to the input — for a `Handle` receiver, the very
same handle — and leaves the store untouched (no insertion: the output
`Services` equals the input). -/
theorem replaceHalfEdge_unchanged_spec (orig : Handle HalfEdge)
    (repl : List (Handle HalfEdge)) (s : Services) (c : Cycle) (r : Region)
    (sk : Sketch) (f : Face) (sh : Shell) (so : Solid) (hsh : Handle Shell) :
    (c.containsHE orig.id = false →
      c.replaceHalfEdge orig repl s = some (.original c, s)) ∧
    (r.containsHE orig.id = false →
      r.replaceHalfEdge orig repl s = some (.original r, s)) ∧
    (sk.containsHE orig.id = false →
      sk.replaceHalfEdge orig repl s = some (.original sk, s)) ∧
    (f.containsHE orig.id = false →
      f.replaceHalfEdge orig repl s = some (.original f, s)) ∧
    (sh.containsHE orig.id = false →
      sh.replaceHalfEdge orig repl s = some (.original sh, s)) ∧
    (so.containsHE orig.id = false →
      so.replaceHalfEdge orig repl s = some (.original so, s)) ∧
    (hsh.payload.containsHE orig.id = false →
      replaceHalfEdgeHShell hsh orig repl s = some (.original hsh, s)) :=
  ⟨cycle_replace_absent c orig repl s, region_replace_absent r orig repl s,
    sketch_replace_absent sk orig repl s, face_replace_absent f orig repl s,
    shell_replace_absent sh orig repl s, solid_replace_absent so orig repl s,
    hshell_replace_absent hsh orig repl s⟩

/-- C2 witness: a concrete object graph (one solid, one shell, one face,
one region over an empty exterior cycle) in which half-edge identity 100
does not occur; every receiver kind returns `Original` with the services
untouched. -/
theorem replaceHalfEdge_unchanged_spec_witness :
    (Cycle.replaceHalfEdge ⟨⟨[]⟩⟩ ⟨100, ⟨0⟩⟩ [] ⟨1000, [], [], [], []⟩ =
      some (.original ⟨⟨[]⟩⟩, ⟨1000, [], [], [], []⟩)) ∧
    (Region.replaceHalfEdge ⟨⟨10, ⟨⟨[]⟩⟩⟩, ⟨[]⟩, none⟩ ⟨100, ⟨0⟩⟩ []
        ⟨1000, [], [], [], []⟩ =
      some (.original ⟨⟨10, ⟨⟨[]⟩⟩⟩, ⟨[]⟩, none⟩, ⟨1000, [], [], [], []⟩)) ∧
    (Sketch.replaceHalfEdge ⟨⟨[⟨20, ⟨⟨10, ⟨⟨[]⟩⟩⟩, ⟨[]⟩, none⟩⟩]⟩⟩
        ⟨100, ⟨0⟩⟩ [] ⟨1000, [], [], [], []⟩ =
      some (.original ⟨⟨[⟨20, ⟨⟨10, ⟨⟨[]⟩⟩⟩, ⟨[]⟩, none⟩⟩]⟩⟩,
        ⟨1000, [], [], [], []⟩)) ∧
    (Face.replaceHalfEdge ⟨⟨30, 0⟩, ⟨20, ⟨⟨10, ⟨⟨[]⟩⟩⟩, ⟨[]⟩, none⟩⟩⟩
        ⟨100, ⟨0⟩⟩ [] ⟨1000, [], [], [], []⟩ =
      some (.original ⟨⟨30, 0⟩, ⟨20, ⟨⟨10, ⟨⟨[]⟩⟩⟩, ⟨[]⟩, none⟩⟩⟩,
        ⟨1000, [], [], [], []⟩)) ∧
    (Shell.replaceHalfEdge
        ⟨⟨[⟨40, ⟨⟨30, 0⟩, ⟨20, ⟨⟨10, ⟨⟨[]⟩⟩⟩, ⟨[]⟩, none⟩⟩⟩⟩]⟩⟩
        ⟨100, ⟨0⟩⟩ [] ⟨1000, [], [], [], []⟩ =
      some (.original
        ⟨⟨[⟨40, ⟨⟨30, 0⟩, ⟨20, ⟨⟨10, ⟨⟨[]⟩⟩⟩, ⟨[]⟩, none⟩⟩⟩⟩]⟩⟩,
        ⟨1000, [], [], [], []⟩)) ∧
    (Solid.replaceHalfEdge
        ⟨⟨[⟨50, ⟨⟨[⟨40, ⟨⟨30, 0⟩, ⟨20, ⟨⟨10, ⟨⟨[]⟩⟩⟩, ⟨[]⟩, none⟩⟩⟩⟩]⟩⟩⟩]⟩⟩
        ⟨100, ⟨0⟩⟩ [] ⟨1000, [], [], [], []⟩ =
      some (.original
        ⟨⟨[⟨50, ⟨⟨[⟨40, ⟨⟨30, 0⟩, ⟨20, ⟨⟨10, ⟨⟨[]⟩⟩⟩, ⟨[]⟩, none⟩⟩⟩⟩]⟩⟩⟩]⟩⟩,
        ⟨1000, [], [], [], []⟩)) ∧
    (replaceHalfEdgeHShell
        ⟨50, ⟨⟨[⟨40, ⟨⟨30, 0⟩, ⟨20, ⟨⟨10, ⟨⟨[]⟩⟩⟩, ⟨[]⟩, none⟩⟩⟩⟩]⟩⟩⟩
        ⟨100, ⟨0⟩⟩ [] ⟨1000, [], [], [], []⟩ =
      some (.original
        ⟨50, ⟨⟨[⟨40, ⟨⟨30, 0⟩, ⟨20, ⟨⟨10, ⟨⟨[]⟩⟩⟩, ⟨[]⟩, none⟩⟩⟩⟩]⟩⟩⟩,
        ⟨1000, [], [], [], []⟩)) := by
  have h := replaceHalfEdge_unchanged_spec ⟨100, ⟨0⟩⟩ [] ⟨1000, [], [], [], []⟩
    ⟨⟨[]⟩⟩ ⟨⟨10, ⟨⟨[]⟩⟩⟩, ⟨[]⟩, none⟩
    ⟨⟨[⟨20, ⟨⟨10, ⟨⟨[]⟩⟩⟩, ⟨[]⟩, none⟩⟩]⟩⟩
    ⟨⟨30, 0⟩, ⟨20, ⟨⟨10, ⟨⟨[]⟩⟩⟩, ⟨[]⟩, none⟩⟩⟩
    ⟨⟨[⟨40, ⟨⟨30, 0⟩, ⟨20, ⟨⟨10, ⟨⟨[]⟩⟩⟩, ⟨[]⟩, none⟩⟩⟩⟩]⟩⟩
    ⟨⟨[⟨50, ⟨⟨[⟨40, ⟨⟨30, 0⟩, ⟨20, ⟨⟨10, ⟨⟨[]⟩⟩⟩, ⟨[]⟩, none⟩⟩⟩⟩]⟩⟩⟩]⟩⟩
    ⟨50, ⟨⟨[⟨40, ⟨⟨30, 0⟩, ⟨20, ⟨⟨10, ⟨⟨[]⟩⟩⟩, ⟨[]⟩, none⟩⟩⟩⟩]⟩⟩⟩
  exact ⟨h.1 (by decide), h.2.1 (by decide), h.2.2.1 (by decide),
    h.2.2.2.1 (by decide), h.2.2.2.2.1 (by decide),
    h.2.2.2.2.2.1 (by decide), h.2.2.2.2.2.2 (by decide)⟩

/-! ## Lemmas: a contained half-edge forces the Updated outcome -/

theorem anyId_eq_true_iff {T : Type} (l : List (Handle T)) (i : Nat) :
    (l.any (fun h => h.id == i) = true) ↔ i ∈ l.map Handle.id := by
  rw [List.any_eq_true]
  constructor
  · rintro ⟨h, hm, hbeq⟩
    rw [beq_iff_eq] at hbeq
    exact hbeq ▸ List.mem_map_of_mem Handle.id hm
  · intro hmem
    rcases List.mem_map.mp hmem with ⟨h, hm, heq⟩
    exact ⟨h, hm, by simp [heq]⟩

theorem cycle_replace_contains (c : Cycle) (orig : Handle HalfEdge)
    (repl : List (Handle HalfEdge)) (s : Services)
    (hc : c.containsHE orig.id = true) :
    c.replaceHalfEdge orig repl s = none ∨
      ∃ u, c.replaceHalfEdge orig repl s = some (.updated u, s) := by
  have hmem := (anyId_eq_true_iff _ _).mp hc
  have hspl :=
    ObjectSet.spliceGo_eq_some_of_mem orig.id repl c.halfEdges.inner hmem
  cases hnew : ObjectSet.new
      (c.halfEdges.inner.take
          (c.halfEdges.inner.findIdx (fun h => h.id == orig.id)) ++ repl ++
        c.halfEdges.inner.drop
          (c.halfEdges.inner.findIdx (fun h => h.id == orig.id) + 1)) with
  | none =>
    left
    simp only [Cycle.replaceHalfEdge, ObjectSet.replace, hspl,
      Option.map_some', hnew]
  | some t =>
    right
    exact ⟨⟨t⟩, by
      simp only [Cycle.replaceHalfEdge, ObjectSet.replace, hspl,
        Option.map_some', hnew]⟩

theorem hcycle_replace_contains (ch : Handle Cycle) (orig : Handle HalfEdge)
    (repl : List (Handle HalfEdge)) (s : Services)
    (hc : ch.payload.containsHE orig.id = true) :
    replaceHalfEdgeHCycle ch orig repl s = none ∨
      ∃ u, replaceHalfEdgeHCycle ch orig repl s = some (.updated u, s) := by
  rcases cycle_replace_contains ch.payload orig repl s hc with hnone | ⟨u, hupd⟩
  · left
    simp only [replaceHalfEdgeHCycle, hnone, Option.map_none']
  · right
    exact ⟨u, by simp only [replaceHalfEdgeHCycle, hupd, Option.map_some',
      ReplaceOutput.mapOriginal]⟩

theorem region_goInteriors_none (orig : Handle HalfEdge)
    (repl : List (Handle HalfEdge)) (ch : Handle Cycle)
    (rest : List (Handle Cycle)) (acc : List (Handle Cycle)) (hap : Bool)
    (s : Services) (hr : replaceHalfEdgeHCycle ch orig repl s = none) :
    Region.goInteriors orig repl (ch :: rest) acc hap s = none := by
  rw [Region.goInteriors, hr]

theorem region_goInteriors_step (orig : Handle HalfEdge)
    (repl : List (Handle HalfEdge)) (ch : Handle Cycle)
    (rest : List (Handle Cycle)) (acc : List (Handle Cycle)) (hap : Bool)
    (s : Services) {o : ReplaceOutput (Handle Cycle) Cycle}
    {s1 : Services} {h2 : Handle Cycle} {s2 : Services}
    (hr : replaceHalfEdgeHCycle ch orig repl s = some (o, s1))
    (hins : insertOutCycle o s1 = (h2, s2)) :
    Region.goInteriors orig repl (ch :: rest) acc hap s =
      Region.goInteriors orig repl rest (acc ++ [h2])
        (hap || o.wasUpdated) s2 := by
  rw [Region.goInteriors, hr]
  show (match insertOutCycle o s1 with
    | (h, s2) => Region.goInteriors orig repl rest (acc ++ [h])
        (hap || o.wasUpdated) s2) = _
  rw [hins]

theorem region_goInteriors_hap_mono (orig : Handle HalfEdge)
    (repl : List (Handle HalfEdge)) (chs : List (Handle Cycle)) :
    ∀ acc s out, Region.goInteriors orig repl chs acc true s = some out →
      out.2.1 = true := by
  induction chs with
  | nil =>
    intro acc s out h
    simp only [Region.goInteriors, Option.some.injEq] at h
    rw [← h]
  | cons ch rest ih =>
    intro acc s out h
    cases hr : replaceHalfEdgeHCycle ch orig repl s with
    | none =>
      rw [region_goInteriors_none orig repl ch rest acc true s hr] at h
      cases h
    | some p =>
      obtain ⟨o, s1⟩ := p
      rcases hins : insertOutCycle o s1 with ⟨h2, s2⟩
      rw [region_goInteriors_step orig repl ch rest acc true s hr hins,
        Bool.true_or] at h
      exact ih (acc ++ [h2]) s2 out h

theorem region_goInteriors_contains (orig : Handle HalfEdge)
    (repl : List (Handle HalfEdge)) (chs : List (Handle Cycle))
    (ch0 : Handle Cycle) (hmem : ch0 ∈ chs)
    (hc : ch0.payload.containsHE orig.id = true) :
    ∀ acc hap s, Region.goInteriors orig repl chs acc hap s = none ∨
      ∃ out, Region.goInteriors orig repl chs acc hap s = some out ∧
        out.2.1 = true := by
  induction chs with
  | nil => cases hmem
  | cons ch rest ih =>
    intro acc hap s
    rcases List.mem_cons.mp hmem with rfl | hmem'
    · rcases hcycle_replace_contains ch0 orig repl s hc with hnone | ⟨u, hupd⟩
      · exact Or.inl (region_goInteriors_none orig repl ch0 rest acc hap s hnone)
      · rcases hins : insertOutCycle (.updated u) s with ⟨h2, s2⟩
        rw [region_goInteriors_step orig repl ch0 rest acc hap s hupd hins,
          show (ReplaceOutput.updated (O := Handle Cycle) u).wasUpdated = true
            from rfl, Bool.or_true]
        cases hgo : Region.goInteriors orig repl rest (acc ++ [h2]) true s2 with
        | none => exact Or.inl rfl
        | some out =>
          exact Or.inr ⟨out, rfl,
            region_goInteriors_hap_mono orig repl rest _ _ out hgo⟩
    · cases hr : replaceHalfEdgeHCycle ch orig repl s with
      | none =>
        exact Or.inl (region_goInteriors_none orig repl ch rest acc hap s hr)
      | some p =>
        obtain ⟨o, s1⟩ := p
        rcases hins : insertOutCycle o s1 with ⟨h2, s2⟩
        rw [region_goInteriors_step orig repl ch rest acc hap s hr hins]
        exact ih hmem' (acc ++ [h2]) (hap || o.wasUpdated) s2

theorem region_replace_contains (r : Region) (orig : Handle HalfEdge)
    (repl : List (Handle HalfEdge)) (s : Services)
    (hc : r.containsHE orig.id = true) :
    r.replaceHalfEdge orig repl s = none ∨
      ∃ u s', r.replaceHalfEdge orig repl s = some (.updated u, s') := by
  by_cases hext : r.exterior.payload.containsHE orig.id = true
  · rcases hcycle_replace_contains r.exterior orig repl s hext with
      hnone | ⟨u, hupd⟩
    · left
      rw [Region.replaceHalfEdge, hnone]
    · cases hgo : Region.goInteriors orig repl r.interiors.inner [] true s with
      | none =>
        left
        rw [Region.replaceHalfEdge, hupd]
        simp only [ReplaceOutput.wasUpdated, hgo]
      | some out =>
        obtain ⟨ints, hap2, s2⟩ := out
        have hhap2 : hap2 = true :=
          region_goInteriors_hap_mono orig repl r.interiors.inner [] s
            (ints, hap2, s2) hgo
        right
        refine ⟨⟨⟨s2.nextId, u⟩, ⟨ints⟩, r.color⟩,
          (s2.insertCycle u).2, ?_⟩
        rw [Region.replaceHalfEdge, hupd]
        simp only [ReplaceOutput.wasUpdated, hgo, hhap2, if_true,
          insertOutCycle, Services.insertCycle]
  · have hext' : r.exterior.payload.containsHE orig.id = false :=
      Bool.not_eq_true _ ▸ (Bool.eq_false_iff.mpr hext)
    have hint : ∃ ch ∈ r.interiors.inner,
        ch.payload.containsHE orig.id = true := by
      rw [Region.containsHE, hext', Bool.false_or, List.any_eq_true] at hc
      exact hc
    obtain ⟨ch0, hmem0, hc0⟩ := hint
    rcases region_goInteriors_contains orig repl r.interiors.inner ch0 hmem0
        hc0 [] false s with hnone | ⟨out, hgo, htrue⟩
    · left
      rw [Region.replaceHalfEdge, hcycle_replace_absent _ _ _ _ hext']
      simp only [ReplaceOutput.wasUpdated, hnone]
    · obtain ⟨ints, hap2, s2⟩ := out
      have htrue' : hap2 = true := htrue
      right
      refine ⟨⟨r.exterior, ⟨ints⟩, r.color⟩, s2, ?_⟩
      rw [Region.replaceHalfEdge, hcycle_replace_absent _ _ _ _ hext']
      simp only [ReplaceOutput.wasUpdated, hgo, htrue', if_true, insertOutCycle]

theorem hregion_replace_contains (rh : Handle Region) (orig : Handle HalfEdge)
    (repl : List (Handle HalfEdge)) (s : Services)
    (hc : rh.payload.containsHE orig.id = true) :
    replaceHalfEdgeHRegion rh orig repl s = none ∨
      ∃ u s', replaceHalfEdgeHRegion rh orig repl s = some (.updated u, s') := by
  rcases region_replace_contains rh.payload orig repl s hc with
    hnone | ⟨u, s', hupd⟩
  · left
    simp only [replaceHalfEdgeHRegion, hnone, Option.map_none']
  · right
    exact ⟨u, s', by simp only [replaceHalfEdgeHRegion, hupd, Option.map_some',
      ReplaceOutput.mapOriginal]⟩

theorem face_replace_contains (f : Face) (orig : Handle HalfEdge)
    (repl : List (Handle HalfEdge)) (s : Services)
    (hc : f.containsHE orig.id = true) :
    f.replaceHalfEdge orig repl s = none ∨
      ∃ u s', f.replaceHalfEdge orig repl s = some (.updated u, s') := by
  rcases hregion_replace_contains f.region orig repl s hc with
    hnone | ⟨u, s', hupd⟩
  · left
    rw [Face.replaceHalfEdge, hnone]
  · right
    refine ⟨⟨f.surface, ⟨s'.nextId, u⟩⟩, (s'.insertRegion u).2, ?_⟩
    rw [Face.replaceHalfEdge, hupd]
    simp only [ReplaceOutput.wasUpdated, if_true, insertOutRegion,
      Services.insertRegion]

theorem hface_replace_contains (fh : Handle Face) (orig : Handle HalfEdge)
    (repl : List (Handle HalfEdge)) (s : Services)
    (hc : fh.payload.containsHE orig.id = true) :
    replaceHalfEdgeHFace fh orig repl s = none ∨
      ∃ u s', replaceHalfEdgeHFace fh orig repl s = some (.updated u, s') := by
  rcases face_replace_contains fh.payload orig repl s hc with
    hnone | ⟨u, s', hupd⟩
  · left
    simp only [replaceHalfEdgeHFace, hnone, Option.map_none']
  · right
    exact ⟨u, s', by simp only [replaceHalfEdgeHFace, hupd, Option.map_some',
      ReplaceOutput.mapOriginal]⟩

theorem shell_goFaces_none (orig : Handle HalfEdge)
    (repl : List (Handle HalfEdge)) (fh : Handle Face)
    (rest : List (Handle Face)) (acc : List (Handle Face)) (hap : Bool)
    (s : Services) (hr : replaceHalfEdgeHFace fh orig repl s = none) :
    Shell.goFaces orig repl (fh :: rest) acc hap s = none := by
  rw [Shell.goFaces, hr]

theorem shell_goFaces_step (orig : Handle HalfEdge)
    (repl : List (Handle HalfEdge)) (fh : Handle Face)
    (rest : List (Handle Face)) (acc : List (Handle Face)) (hap : Bool)
    (s : Services) {o : ReplaceOutput (Handle Face) Face}
    {s1 : Services} {h2 : Handle Face} {s2 : Services}
    (hr : replaceHalfEdgeHFace fh orig repl s = some (o, s1))
    (hins : insertOutFace o s1 = (h2, s2)) :
    Shell.goFaces orig repl (fh :: rest) acc hap s =
      Shell.goFaces orig repl rest (acc ++ [h2]) (hap || o.wasUpdated) s2 := by
  rw [Shell.goFaces, hr]
  show (match insertOutFace o s1 with
    | (h, s2) => Shell.goFaces orig repl rest (acc ++ [h])
        (hap || o.wasUpdated) s2) = _
  rw [hins]

theorem shell_goFaces_append (orig : Handle HalfEdge)
    (repl : List (Handle HalfEdge)) (l1 l2 : List (Handle Face)) :
    ∀ acc hap s, Shell.goFaces orig repl (l1 ++ l2) acc hap s =
      match Shell.goFaces orig repl l1 acc hap s with
      | none => none
      | some (acc1, hap1, s1) => Shell.goFaces orig repl l2 acc1 hap1 s1 := by
  induction l1 with
  | nil => intro acc hap s; simp [Shell.goFaces]
  | cons fh rest ih =>
    intro acc hap s
    rw [List.cons_append]
    cases hr : replaceHalfEdgeHFace fh orig repl s with
    | none =>
      rw [shell_goFaces_none orig repl fh (rest ++ l2) acc hap s hr,
        shell_goFaces_none orig repl fh rest acc hap s hr]
    | some p =>
      obtain ⟨o, s1⟩ := p
      rcases hins : insertOutFace o s1 with ⟨h2, s2⟩
      rw [shell_goFaces_step orig repl fh (rest ++ l2) acc hap s hr hins,
        shell_goFaces_step orig repl fh rest acc hap s hr hins]
      exact ih (acc ++ [h2]) (hap || o.wasUpdated) s2

/-- C3: in a shell with at least two faces where the half-edge occurs in
exactly one face (list decomposition `pre ++ fj :: post`, with the
half-edge contained in `fj` and in none of `pre`/`post`), and whose
replacement in that face succeeds, `replace_half_edge` returns `Updated`,
and in the updated shell every face other than the affected one is the very
same handle (identity unchanged, reused by reference) in its original
position. -/
theorem shell_replace_frame_spec (sh : Shell) (orig : Handle HalfEdge)
    (repl : List (Handle HalfEdge)) (s : Services)
    (pre post : List (Handle Face)) (fj : Handle Face)
    (hfs : sh.faces.inner = pre ++ fj :: post)
    (hlen : 2 ≤ sh.faces.inner.length)
    (hpre : ∀ fh ∈ pre, fh.payload.containsHE orig.id = false)
    (hpost : ∀ fh ∈ post, fh.payload.containsHE orig.id = false)
    (hj : fj.payload.containsHE orig.id = true)
    (hsome : (replaceHalfEdgeHFace fj orig repl s).isSome = true) :
    ∃ fh' s', sh.replaceHalfEdge orig repl s =
      some (.updated ⟨⟨pre ++ fh' :: post⟩⟩, s') := by
  rcases hface_replace_contains fj orig repl s hj with hnone | ⟨u, s1, hupd⟩
  · rw [hnone] at hsome
    cases hsome
  rcases hins : insertOutFace (.updated u) s1 with ⟨fh', s2⟩
  have hgoPre : Shell.goFaces orig repl pre [] false s =
      some (pre, false, s) := by
    simpa using shell_goFaces_absent orig repl pre hpre [] false s
  have hgoAll : Shell.goFaces orig repl (pre ++ fj :: post) [] false s =
      some (pre ++ fh' :: post, true, s2) := by
    rw [shell_goFaces_append orig repl pre (fj :: post) [] false s, hgoPre]
    show Shell.goFaces orig repl (fj :: post) pre false s = _
    rw [shell_goFaces_step orig repl fj post pre false s hupd hins,
      show (ReplaceOutput.updated (O := Handle Face) u).wasUpdated = true
        from rfl, Bool.false_or,
      shell_goFaces_absent orig repl post hpost (pre ++ [fh']) true s2]
    simp
  refine ⟨fh', s2, ?_⟩
  rw [Shell.replaceHalfEdge, hfs]
  simp only [hgoAll, if_true]

/-- C3 witness: a two-face shell in which half-edge identity 1 occurs only
in the first face; replacing it with a fresh half-edge yields `Updated`
with the second face's handle reused unchanged. -/
theorem shell_replace_frame_spec_witness :
    ∃ fh' s', Shell.replaceHalfEdge
        ⟨⟨[⟨40, ⟨⟨30, 0⟩, ⟨20, ⟨⟨10, ⟨⟨[⟨1, ⟨1⟩⟩, ⟨2, ⟨2⟩⟩]⟩⟩⟩, ⟨[]⟩,
            none⟩⟩⟩⟩,
          ⟨41, ⟨⟨31, 0⟩, ⟨21, ⟨⟨11, ⟨⟨[⟨3, ⟨3⟩⟩]⟩⟩⟩, ⟨[]⟩, none⟩⟩⟩⟩]⟩⟩
        ⟨1, ⟨1⟩⟩ [⟨5, ⟨5⟩⟩] ⟨1000, [], [], [], []⟩ =
      some (.updated ⟨⟨[fh',
        ⟨41, ⟨⟨31, 0⟩, ⟨21, ⟨⟨11, ⟨⟨[⟨3, ⟨3⟩⟩]⟩⟩⟩, ⟨[]⟩, none⟩⟩⟩⟩]⟩⟩, s') :=
  shell_replace_frame_spec
    ⟨⟨[⟨40, ⟨⟨30, 0⟩, ⟨20, ⟨⟨10, ⟨⟨[⟨1, ⟨1⟩⟩, ⟨2, ⟨2⟩⟩]⟩⟩⟩, ⟨[]⟩, none⟩⟩⟩⟩,
      ⟨41, ⟨⟨31, 0⟩, ⟨21, ⟨⟨11, ⟨⟨[⟨3, ⟨3⟩⟩]⟩⟩⟩, ⟨[]⟩, none⟩⟩⟩⟩]⟩⟩
    ⟨1, ⟨1⟩⟩ [⟨5, ⟨5⟩⟩] ⟨1000, [], [], [], []⟩ []
    [⟨41, ⟨⟨31, 0⟩, ⟨21, ⟨⟨11, ⟨⟨[⟨3, ⟨3⟩⟩]⟩⟩⟩, ⟨[]⟩, none⟩⟩⟩⟩]
    ⟨40, ⟨⟨30, 0⟩, ⟨20, ⟨⟨10, ⟨⟨[⟨1, ⟨1⟩⟩, ⟨2, ⟨2⟩⟩]⟩⟩⟩, ⟨[]⟩, none⟩⟩⟩⟩
    rfl (by decide) (by decide) (by decide) (by decide) (by decide)

/-! ## Lemmas: which objects a replacement call inserts into the store -/

theorem cycle_replace_services (c : Cycle) (orig : Handle HalfEdge)
    (repl : List (Handle HalfEdge)) (s : Services)
    {o : ReplaceOutput Cycle Cycle} {s1 : Services}
    (hr : c.replaceHalfEdge orig repl s = some (o, s1)) : s1 = s := by
  cases hrep : c.halfEdges.replace orig repl with
  | none =>
    rw [Cycle.replaceHalfEdge, hrep] at hr
    exact (congrArg Prod.snd (Option.some.inj hr)).symm
  | some oo =>
    cases oo with
    | none =>
      rw [Cycle.replaceHalfEdge, hrep] at hr
      cases hr
    | some t =>
      rw [Cycle.replaceHalfEdge, hrep] at hr
      exact (congrArg Prod.snd (Option.some.inj hr)).symm

theorem hcycle_replace_services (ch : Handle Cycle) (orig : Handle HalfEdge)
    (repl : List (Handle HalfEdge)) (s : Services)
    {o : ReplaceOutput (Handle Cycle) Cycle} {s1 : Services}
    (hr : replaceHalfEdgeHCycle ch orig repl s = some (o, s1)) : s1 = s := by
  rcases Option.map_eq_some'.mp hr with ⟨p, hp, heq⟩
  obtain ⟨o0, s0⟩ := p
  have hs0 : s0 = s := cycle_replace_services ch.payload orig repl s hp
  have : s1 = s0 := (congrArg Prod.snd heq).symm
  rw [this, hs0]

theorem hcycle_some_original (ch : Handle Cycle) (orig : Handle HalfEdge)
    (repl : List (Handle HalfEdge)) (s : Services)
    {h : Handle Cycle} {s1 : Services}
    (hr : replaceHalfEdgeHCycle ch orig repl s = some (.original h, s1)) :
    h = ch := by
  rcases Option.map_eq_some'.mp hr with ⟨p, _, heq⟩
  obtain ⟨o0, s0⟩ := p
  have h1 : o0.mapOriginal (fun _ => ch) = .original h :=
    congrArg Prod.fst heq
  cases o0 with
  | original o => exact (ReplaceOutput.original.inj h1).symm
  | updated u => cases h1

theorem region_goInteriors_inserted (orig : Handle HalfEdge)
    (repl : List (Handle HalfEdge)) (chs : List (Handle Cycle)) :
    ∀ acc hap s ints hap2 s',
      Region.goInteriors orig repl chs acc hap s = some (ints, hap2, s') →
      (∀ x ∈ s.insertedCycles, x ∈ s'.insertedCycles) ∧
      s'.insertedRegions = s.insertedRegions ∧
      s'.insertedFaces = s.insertedFaces ∧
      s'.insertedShells = s.insertedShells ∧
      ∀ ch ∈ ints, ch ∈ acc ∨ ch ∈ chs ∨
        (ch.id, ch.payload) ∈ s'.insertedCycles := by
  induction chs with
  | nil =>
    intro acc hap s ints hap2 s' h
    simp only [Region.goInteriors, Option.some.injEq, Prod.mk.injEq] at h
    obtain ⟨hints, _, hs⟩ := h
    exact ⟨fun x hx => hs ▸ hx, hs ▸ rfl, hs ▸ rfl, hs ▸ rfl,
      fun ch hch => Or.inl (hints ▸ hch)⟩
  | cons ch0 rest ih =>
    intro acc hap s ints hap2 s' h
    cases hr : replaceHalfEdgeHCycle ch0 orig repl s with
    | none =>
      rw [region_goInteriors_none orig repl ch0 rest acc hap s hr] at h
      cases h
    | some p =>
      obtain ⟨o, s1⟩ := p
      have hs1 : s1 = s := hcycle_replace_services ch0 orig repl s hr
      rcases hins : insertOutCycle o s1 with ⟨h2, s2⟩
      rw [region_goInteriors_step orig repl ch0 rest acc hap s hr hins] at h
      obtain ⟨hmono, hregs, hfaces, hshells, hmem⟩ :=
        ih (acc ++ [h2]) (hap || o.wasUpdated) s2 ints hap2 s' h
      cases o with
      | original hh =>
        have hh2 : h2 = hh ∧ s2 = s1 := by
          rw [insertOutCycle] at hins
          exact ⟨(congrArg Prod.fst hins).symm,
            (congrArg Prod.snd hins).symm⟩
        have hhch : hh = ch0 := hcycle_some_original ch0 orig repl s hr
        have hs2 : s2 = s := by rw [hh2.2, hs1]
        refine ⟨fun x hx => hmono x (hs2 ▸ hx), by rw [hregs, hs2],
          by rw [hfaces, hs2], by rw [hshells, hs2], ?_⟩
        intro c hc
        rcases hmem c hc with hacc | hrest | hlog
        · rcases List.mem_append.mp hacc with h' | h'
          · exact Or.inl h'
          · have hceq : c = ch0 := by
              rw [List.mem_singleton.mp h', hh2.1, hhch]
            rw [hceq]
            exact Or.inr (Or.inl (List.mem_cons_self ch0 rest))
        · exact Or.inr (Or.inl (List.mem_cons_of_mem ch0 hrest))
        · exact Or.inr (Or.inr hlog)
      | updated u =>
        have hh2 : h2 = ⟨s1.nextId, u⟩ ∧
            s2 = (s1.insertCycle u).2 := by
          rw [insertOutCycle, Services.insertCycle] at hins
          exact ⟨(congrArg Prod.fst hins).symm,
            (congrArg Prod.snd hins).symm⟩
        have hcyc2 : s2.insertedCycles = (s1.nextId, u) :: s1.insertedCycles := by
          rw [hh2.2]; rfl
        have heq2 : s2.insertedRegions = s1.insertedRegions ∧
            s2.insertedFaces = s1.insertedFaces ∧
            s2.insertedShells = s1.insertedShells := by
          rw [hh2.2]; exact ⟨rfl, rfl, rfl⟩
        refine ⟨?_, by rw [hregs, heq2.1, hs1], by rw [hfaces, heq2.2.1, hs1],
          by rw [hshells, heq2.2.2, hs1], ?_⟩
        · intro x hx
          refine hmono x ?_
          rw [hcyc2, hs1]
          exact List.mem_cons_of_mem _ hx
        · intro c hc
          rcases hmem c hc with hacc | hrest | hlog
          · rcases List.mem_append.mp hacc with h' | h'
            · exact Or.inl h'
            · have hceq : c = h2 := List.mem_singleton.mp h'
              refine Or.inr (Or.inr (hmono (c.id, c.payload) ?_))
              rw [hcyc2, hceq, hh2.1]
              exact List.mem_cons_self _ _
          · exact Or.inr (Or.inl (List.mem_cons_of_mem ch0 hrest))
          · exact Or.inr (Or.inr hlog)

theorem region_replace_updated_inv (r : Region) (orig : Handle HalfEdge)
    (repl : List (Handle HalfEdge)) (s : Services) {r' : Region}
    {s' : Services}
    (hr : r.replaceHalfEdge orig repl s = some (.updated r', s')) :
    ∃ extOut s1 ints s2,
      replaceHalfEdgeHCycle r.exterior orig repl s = some (extOut, s1) ∧
      Region.goInteriors orig repl r.interiors.inner [] extOut.wasUpdated s1 =
        some (ints, true, s2) ∧
      r' = ⟨(insertOutCycle extOut s2).1, ⟨ints⟩, r.color⟩ ∧
      s' = (insertOutCycle extOut s2).2 := by
  cases hext : replaceHalfEdgeHCycle r.exterior orig repl s with
  | none =>
    rw [Region.replaceHalfEdge, hext] at hr
    cases hr
  | some p =>
    obtain ⟨extOut, s1⟩ := p
    rw [Region.replaceHalfEdge, hext] at hr
    cases hgo : Region.goInteriors orig repl r.interiors.inner []
        extOut.wasUpdated s1 with
    | none =>
      simp only [hgo] at hr
      exact Option.noConfusion hr
    | some out =>
      obtain ⟨ints, hap2, s2⟩ := out
      simp only [hgo] at hr
      cases hap2 with
      | false =>
        rw [if_neg (by simp)] at hr
        exact ReplaceOutput.noConfusion
          (congrArg Prod.fst (Option.some.inj hr))
      | true =>
        rw [if_pos rfl] at hr
        have hpair := Option.some.inj hr
        refine ⟨extOut, s1, ints, s2, rfl, hgo, ?_, ?_⟩
        · exact (ReplaceOutput.updated.inj (congrArg Prod.fst hpair)).symm
        · exact (congrArg Prod.snd hpair).symm

theorem region_replace_effects (r : Region) (orig : Handle HalfEdge)
    (repl : List (Handle HalfEdge)) (s : Services)
    {o : ReplaceOutput Region Region} {s' : Services}
    (hr : r.replaceHalfEdge orig repl s = some (o, s')) :
    s'.insertedRegions = s.insertedRegions ∧
    s'.insertedFaces = s.insertedFaces ∧
    s'.insertedShells = s.insertedShells := by
  cases hext : replaceHalfEdgeHCycle r.exterior orig repl s with
  | none =>
    rw [Region.replaceHalfEdge, hext] at hr
    cases hr
  | some p =>
    obtain ⟨extOut, s1⟩ := p
    have hs1 : s1 = s := hcycle_replace_services r.exterior orig repl s hext
    rw [Region.replaceHalfEdge, hext] at hr
    cases hgo : Region.goInteriors orig repl r.interiors.inner []
        extOut.wasUpdated s1 with
    | none =>
      simp only [hgo] at hr
      exact Option.noConfusion hr
    | some out =>
      obtain ⟨ints, hap2, s2⟩ := out
      obtain ⟨_, hregs, hfaces, hshells, _⟩ :=
        region_goInteriors_inserted orig repl r.interiors.inner []
          extOut.wasUpdated s1 ints hap2 s2 hgo
      simp only [hgo] at hr
      cases hap2 with
      | false =>
        rw [if_neg (by simp)] at hr
        have hs' : s' = s2 := (congrArg Prod.snd (Option.some.inj hr)).symm
        rw [hs', hregs, hfaces, hshells, hs1]
        exact ⟨rfl, rfl, rfl⟩
      | true =>
        rw [if_pos rfl] at hr
        have hs' : s' = (insertOutCycle extOut s2).2 :=
          (congrArg Prod.snd (Option.some.inj hr)).symm
        have hins : (insertOutCycle extOut s2).2.insertedRegions =
            s2.insertedRegions ∧
            (insertOutCycle extOut s2).2.insertedFaces = s2.insertedFaces ∧
            (insertOutCycle extOut s2).2.insertedShells =
              s2.insertedShells := by
          cases extOut with
          | original h => exact ⟨rfl, rfl, rfl⟩
          | updated u => exact ⟨rfl, rfl, rfl⟩
        rw [hs', hins.1, hins.2.1, hins.2.2, hregs, hfaces, hshells, hs1]
        exact ⟨rfl, rfl, rfl⟩

theorem hregion_replace_effects (rh : Handle Region) (orig : Handle HalfEdge)
    (repl : List (Handle HalfEdge)) (s : Services)
    {o : ReplaceOutput (Handle Region) Region} {s' : Services}
    (hr : replaceHalfEdgeHRegion rh orig repl s = some (o, s')) :
    s'.insertedRegions = s.insertedRegions ∧
    s'.insertedFaces = s.insertedFaces ∧
    s'.insertedShells = s.insertedShells := by
  rcases Option.map_eq_some'.mp hr with ⟨p, hp, heq⟩
  obtain ⟨o0, s0⟩ := p
  have := region_replace_effects rh.payload orig repl s hp
  have hs : s' = s0 := (congrArg Prod.snd heq).symm
  rw [hs]
  exact this

theorem hregion_some_updated (rh : Handle Region) (orig : Handle HalfEdge)
    (repl : List (Handle HalfEdge)) (s : Services)
    {u : Region} {s' : Services}
    (hr : replaceHalfEdgeHRegion rh orig repl s = some (.updated u, s')) :
    rh.payload.replaceHalfEdge orig repl s = some (.updated u, s') := by
  rcases Option.map_eq_some'.mp hr with ⟨p, hp, heq⟩
  obtain ⟨o0, s0⟩ := p
  have hfst : o0.mapOriginal (fun _ => rh) = .updated u :=
    congrArg Prod.fst heq
  have hsnd : s0 = s' := congrArg Prod.snd heq
  cases o0 with
  | original o => cases hfst
  | updated u0 =>
    have : u0 = u := ReplaceOutput.updated.inj hfst
    rw [← this, ← hsnd]
    exact hp

theorem face_replace_updated_inv (f : Face) (orig : Handle HalfEdge)
    (repl : List (Handle HalfEdge)) (s : Services) {f' : Face}
    {s' : Services}
    (hr : f.replaceHalfEdge orig repl s = some (.updated f', s')) :
    ∃ u s1, replaceHalfEdgeHRegion f.region orig repl s =
        some (.updated u, s1) ∧
      f' = ⟨f.surface, ⟨s1.nextId, u⟩⟩ ∧ s' = (s1.insertRegion u).2 := by
  cases hreg : replaceHalfEdgeHRegion f.region orig repl s with
  | none =>
    rw [Face.replaceHalfEdge, hreg] at hr
    cases hr
  | some p =>
    obtain ⟨regOut, s1⟩ := p
    rw [Face.replaceHalfEdge, hreg] at hr
    cases regOut with
    | original h =>
      simp only [ReplaceOutput.wasUpdated, Bool.false_eq_true, if_false] at hr
      exact ReplaceOutput.noConfusion
        (congrArg Prod.fst (Option.some.inj hr))
    | updated u =>
      simp only [ReplaceOutput.wasUpdated, if_true, insertOutRegion] at hr
      have hpair := Option.some.inj hr
      refine ⟨u, s1, rfl, ?_, ?_⟩
      · exact (ReplaceOutput.updated.inj (congrArg Prod.fst hpair)).symm
      · exact (congrArg Prod.snd hpair).symm

theorem face_replace_effects (f : Face) (orig : Handle HalfEdge)
    (repl : List (Handle HalfEdge)) (s : Services)
    {o : ReplaceOutput Face Face} {s' : Services}
    (hr : f.replaceHalfEdge orig repl s = some (o, s')) :
    s'.insertedFaces = s.insertedFaces ∧
    s'.insertedShells = s.insertedShells := by
  cases hreg : replaceHalfEdgeHRegion f.region orig repl s with
  | none =>
    rw [Face.replaceHalfEdge, hreg] at hr
    cases hr
  | some p =>
    obtain ⟨regOut, s1⟩ := p
    have heff := hregion_replace_effects f.region orig repl s hreg
    rw [Face.replaceHalfEdge, hreg] at hr
    cases regOut with
    | original h =>
      simp only [ReplaceOutput.wasUpdated, Bool.false_eq_true, if_false] at hr
      have hs : s' = s1 := (congrArg Prod.snd (Option.some.inj hr)).symm
      rw [hs]
      exact ⟨heff.2.1, heff.2.2⟩
    | updated u =>
      simp only [ReplaceOutput.wasUpdated, if_true, insertOutRegion] at hr
      have hs : s' = (s1.insertRegion u).2 :=
        (congrArg Prod.snd (Option.some.inj hr)).symm
      rw [hs]
      exact ⟨heff.2.1, heff.2.2⟩

theorem hface_replace_effects (fh : Handle Face) (orig : Handle HalfEdge)
    (repl : List (Handle HalfEdge)) (s : Services)
    {o : ReplaceOutput (Handle Face) Face} {s' : Services}
    (hr : replaceHalfEdgeHFace fh orig repl s = some (o, s')) :
    s'.insertedFaces = s.insertedFaces ∧
    s'.insertedShells = s.insertedShells := by
  rcases Option.map_eq_some'.mp hr with ⟨p, hp, heq⟩
  obtain ⟨o0, s0⟩ := p
  have := face_replace_effects fh.payload orig repl s hp
  have hs : s' = s0 := (congrArg Prod.snd heq).symm
  rw [hs]
  exact this

theorem hface_some_original (fh : Handle Face) (orig : Handle HalfEdge)
    (repl : List (Handle HalfEdge)) (s : Services)
    {h : Handle Face} {s1 : Services}
    (hr : replaceHalfEdgeHFace fh orig repl s = some (.original h, s1)) :
    h = fh := by
  rcases Option.map_eq_some'.mp hr with ⟨p, _, heq⟩
  obtain ⟨o0, s0⟩ := p
  have h1 : o0.mapOriginal (fun _ => fh) = .original h :=
    congrArg Prod.fst heq
  cases o0 with
  | original o => exact (ReplaceOutput.original.inj h1).symm
  | updated u => cases h1

theorem shell_goFaces_inserted (orig : Handle HalfEdge)
    (repl : List (Handle HalfEdge)) (fhs : List (Handle Face)) :
    ∀ acc hap s faces hap2 s',
      Shell.goFaces orig repl fhs acc hap s = some (faces, hap2, s') →
      (∀ x ∈ s.insertedFaces, x ∈ s'.insertedFaces) ∧
      s'.insertedShells = s.insertedShells ∧
      ∀ fh ∈ faces, fh ∈ acc ∨ fh ∈ fhs ∨
        (fh.id, fh.payload) ∈ s'.insertedFaces := by
  induction fhs with
  | nil =>
    intro acc hap s faces hap2 s' h
    simp only [Shell.goFaces, Option.some.injEq, Prod.mk.injEq] at h
    obtain ⟨hfaces, _, hs⟩ := h
    exact ⟨fun x hx => hs ▸ hx, hs ▸ rfl,
      fun fh hfh => Or.inl (hfaces ▸ hfh)⟩
  | cons fh0 rest ih =>
    intro acc hap s faces hap2 s' h
    cases hr : replaceHalfEdgeHFace fh0 orig repl s with
    | none =>
      rw [shell_goFaces_none orig repl fh0 rest acc hap s hr] at h
      cases h
    | some p =>
      obtain ⟨o, s1⟩ := p
      have heff1 := hface_replace_effects fh0 orig repl s hr
      rcases hins : insertOutFace o s1 with ⟨h2, s2⟩
      rw [shell_goFaces_step orig repl fh0 rest acc hap s hr hins] at h
      obtain ⟨hmono, hshells, hmem⟩ :=
        ih (acc ++ [h2]) (hap || o.wasUpdated) s2 faces hap2 s' h
      cases o with
      | original hh =>
        have hh2 : h2 = hh ∧ s2 = s1 := by
          rw [insertOutFace] at hins
          exact ⟨(congrArg Prod.fst hins).symm,
            (congrArg Prod.snd hins).symm⟩
        have hhch : hh = fh0 := hface_some_original fh0 orig repl s hr
        refine ⟨fun x hx => hmono x (by rw [hh2.2, heff1.1]; exact hx),
          by rw [hshells, hh2.2, heff1.2], ?_⟩
        intro c hc
        rcases hmem c hc with hacc | hrest | hlog
        · rcases List.mem_append.mp hacc with h' | h'
          · exact Or.inl h'
          · have hceq : c = fh0 := by
              rw [List.mem_singleton.mp h', hh2.1, hhch]
            rw [hceq]
            exact Or.inr (Or.inl (List.mem_cons_self fh0 rest))
        · exact Or.inr (Or.inl (List.mem_cons_of_mem fh0 hrest))
        · exact Or.inr (Or.inr hlog)
      | updated u =>
        have hh2 : h2 = ⟨s1.nextId, u⟩ ∧ s2 = (s1.insertFace u).2 := by
          rw [insertOutFace, Services.insertFace] at hins
          exact ⟨(congrArg Prod.fst hins).symm,
            (congrArg Prod.snd hins).symm⟩
        have hfc2 : s2.insertedFaces = (s1.nextId, u) :: s1.insertedFaces := by
          rw [hh2.2]; rfl
        have hsh2 : s2.insertedShells = s1.insertedShells := by
          rw [hh2.2]; rfl
        refine ⟨?_, by rw [hshells, hsh2, heff1.2], ?_⟩
        · intro x hx
          refine hmono x ?_
          rw [hfc2, heff1.1]
          exact List.mem_cons_of_mem _ hx
        · intro c hc
          rcases hmem c hc with hacc | hrest | hlog
          · rcases List.mem_append.mp hacc with h' | h'
            · exact Or.inl h'
            · have hceq : c = h2 := List.mem_singleton.mp h'
              refine Or.inr (Or.inr (hmono (c.id, c.payload) ?_))
              rw [hfc2, hceq, hh2.1]
              exact List.mem_cons_self _ _
          · exact Or.inr (Or.inl (List.mem_cons_of_mem fh0 hrest))
          · exact Or.inr (Or.inr hlog)

theorem shell_replace_updated_inv (sh : Shell) (orig : Handle HalfEdge)
    (repl : List (Handle HalfEdge)) (s : Services) {sh' : Shell}
    {s' : Services}
    (hr : sh.replaceHalfEdge orig repl s = some (.updated sh', s')) :
    ∃ faces s2, Shell.goFaces orig repl sh.faces.inner [] false s =
        some (faces, true, s2) ∧ sh' = ⟨⟨faces⟩⟩ ∧ s' = s2 := by
  cases hgo : Shell.goFaces orig repl sh.faces.inner [] false s with
  | none =>
    rw [Shell.replaceHalfEdge, hgo] at hr
    cases hr
  | some out =>
    obtain ⟨faces, hap2, s2⟩ := out
    rw [Shell.replaceHalfEdge] at hr
    simp only [hgo] at hr
    cases hap2 with
    | false =>
      rw [if_neg (by simp)] at hr
      exact ReplaceOutput.noConfusion
        (congrArg Prod.fst (Option.some.inj hr))
    | true =>
      rw [if_pos rfl] at hr
      have hpair := Option.some.inj hr
      refine ⟨faces, s2, rfl, ?_, ?_⟩
      · exact (ReplaceOutput.updated.inj (congrArg Prod.fst hpair)).symm
      · exact (congrArg Prod.snd hpair).symm

theorem shell_replace_effects (sh : Shell) (orig : Handle HalfEdge)
    (repl : List (Handle HalfEdge)) (s : Services)
    {o : ReplaceOutput Shell Shell} {s' : Services}
    (hr : sh.replaceHalfEdge orig repl s = some (o, s')) :
    s'.insertedShells = s.insertedShells := by
  cases hgo : Shell.goFaces orig repl sh.faces.inner [] false s with
  | none =>
    rw [Shell.replaceHalfEdge, hgo] at hr
    cases hr
  | some out =>
    obtain ⟨faces, hap2, s2⟩ := out
    obtain ⟨_, hshells, _⟩ := shell_goFaces_inserted orig repl
      sh.faces.inner [] false s faces hap2 s2 hgo
    rw [Shell.replaceHalfEdge] at hr
    simp only [hgo] at hr
    cases hap2 with
    | false =>
      rw [if_neg (by simp)] at hr
      have hs : s' = s2 := (congrArg Prod.snd (Option.some.inj hr)).symm
      rw [hs, hshells]
    | true =>
      rw [if_pos rfl] at hr
      have hs : s' = s2 := (congrArg Prod.snd (Option.some.inj hr)).symm
      rw [hs, hshells]

theorem hshell_replace_effects (shh : Handle Shell) (orig : Handle HalfEdge)
    (repl : List (Handle HalfEdge)) (s : Services)
    {o : ReplaceOutput (Handle Shell) Shell} {s' : Services}
    (hr : replaceHalfEdgeHShell shh orig repl s = some (o, s')) :
    s'.insertedShells = s.insertedShells := by
  rcases Option.map_eq_some'.mp hr with ⟨p, hp, heq⟩
  obtain ⟨o0, s0⟩ := p
  have := shell_replace_effects shh.payload orig repl s hp
  have hs : s' = s0 := (congrArg Prod.snd heq).symm
  rw [hs]
  exact this

theorem hshell_some_original (shh : Handle Shell) (orig : Handle HalfEdge)
    (repl : List (Handle HalfEdge)) (s : Services)
    {h : Handle Shell} {s1 : Services}
    (hr : replaceHalfEdgeHShell shh orig repl s = some (.original h, s1)) :
    h = shh := by
  rcases Option.map_eq_some'.mp hr with ⟨p, _, heq⟩
  obtain ⟨o0, s0⟩ := p
  have h1 : o0.mapOriginal (fun _ => shh) = .original h :=
    congrArg Prod.fst heq
  cases o0 with
  | original o => exact (ReplaceOutput.original.inj h1).symm
  | updated u => cases h1

theorem solid_goShells_none (orig : Handle HalfEdge)
    (repl : List (Handle HalfEdge)) (shh : Handle Shell)
    (rest : List (Handle Shell)) (acc : List (Handle Shell)) (hap : Bool)
    (s : Services) (hr : replaceHalfEdgeHShell shh orig repl s = none) :
    Solid.goShells orig repl (shh :: rest) acc hap s = none := by
  rw [Solid.goShells, hr]

theorem solid_goShells_step (orig : Handle HalfEdge)
    (repl : List (Handle HalfEdge)) (shh : Handle Shell)
    (rest : List (Handle Shell)) (acc : List (Handle Shell)) (hap : Bool)
    (s : Services) {o : ReplaceOutput (Handle Shell) Shell}
    {s1 : Services} {h2 : Handle Shell} {s2 : Services}
    (hr : replaceHalfEdgeHShell shh orig repl s = some (o, s1))
    (hins : insertOutShell o s1 = (h2, s2)) :
    Solid.goShells orig repl (shh :: rest) acc hap s =
      Solid.goShells orig repl rest (acc ++ [h2])
        (hap || o.wasUpdated) s2 := by
  rw [Solid.goShells, hr]
  show (match insertOutShell o s1 with
    | (h, s2) => Solid.goShells orig repl rest (acc ++ [h])
        (hap || o.wasUpdated) s2) = _
  rw [hins]

theorem solid_goShells_inserted (orig : Handle HalfEdge)
    (repl : List (Handle HalfEdge)) (shs : List (Handle Shell)) :
    ∀ acc hap s shells hap2 s',
      Solid.goShells orig repl shs acc hap s = some (shells, hap2, s') →
      (∀ x ∈ s.insertedShells, x ∈ s'.insertedShells) ∧
      ∀ shh ∈ shells, shh ∈ acc ∨ shh ∈ shs ∨
        (shh.id, shh.payload) ∈ s'.insertedShells := by
  induction shs with
  | nil =>
    intro acc hap s shells hap2 s' h
    simp only [Solid.goShells, Option.some.injEq, Prod.mk.injEq] at h
    obtain ⟨hshells, _, hs⟩ := h
    exact ⟨fun x hx => hs ▸ hx, fun shh hshh => Or.inl (hshells ▸ hshh)⟩
  | cons shh0 rest ih =>
    intro acc hap s shells hap2 s' h
    cases hr : replaceHalfEdgeHShell shh0 orig repl s with
    | none =>
      rw [solid_goShells_none orig repl shh0 rest acc hap s hr] at h
      cases h
    | some p =>
      obtain ⟨o, s1⟩ := p
      have heff1 := hshell_replace_effects shh0 orig repl s hr
      rcases hins : insertOutShell o s1 with ⟨h2, s2⟩
      rw [solid_goShells_step orig repl shh0 rest acc hap s hr hins] at h
      obtain ⟨hmono, hmem⟩ :=
        ih (acc ++ [h2]) (hap || o.wasUpdated) s2 shells hap2 s' h
      cases o with
      | original hh =>
        have hh2 : h2 = hh ∧ s2 = s1 := by
          rw [insertOutShell] at hins
          exact ⟨(congrArg Prod.fst hins).symm,
            (congrArg Prod.snd hins).symm⟩
        have hhch : hh = shh0 := hshell_some_original shh0 orig repl s hr
        refine ⟨fun x hx => hmono x (by rw [hh2.2, heff1]; exact hx), ?_⟩
        intro c hc
        rcases hmem c hc with hacc | hrest | hlog
        · rcases List.mem_append.mp hacc with h' | h'
          · exact Or.inl h'
          · have hceq : c = shh0 := by
              rw [List.mem_singleton.mp h', hh2.1, hhch]
            rw [hceq]
            exact Or.inr (Or.inl (List.mem_cons_self shh0 rest))
        · exact Or.inr (Or.inl (List.mem_cons_of_mem shh0 hrest))
        · exact Or.inr (Or.inr hlog)
      | updated u =>
        have hh2 : h2 = ⟨s1.nextId, u⟩ ∧ s2 = (s1.insertShell u).2 := by
          rw [insertOutShell, Services.insertShell] at hins
          exact ⟨(congrArg Prod.fst hins).symm,
            (congrArg Prod.snd hins).symm⟩
        have hsc2 : s2.insertedShells =
            (s1.nextId, u) :: s1.insertedShells := by
          rw [hh2.2]; rfl
        refine ⟨?_, ?_⟩
        · intro x hx
          refine hmono x ?_
          rw [hsc2, heff1]
          exact List.mem_cons_of_mem _ hx
        · intro c hc
          rcases hmem c hc with hacc | hrest | hlog
          · rcases List.mem_append.mp hacc with h' | h'
            · exact Or.inl h'
            · have hceq : c = h2 := List.mem_singleton.mp h'
              refine Or.inr (Or.inr (hmono (c.id, c.payload) ?_))
              rw [hsc2, hceq, hh2.1]
              exact List.mem_cons_self _ _
          · exact Or.inr (Or.inl (List.mem_cons_of_mem shh0 hrest))
          · exact Or.inr (Or.inr hlog)

theorem solid_replace_updated_inv (so : Solid) (orig : Handle HalfEdge)
    (repl : List (Handle HalfEdge)) (s : Services) {so' : Solid}
    {s' : Services}
    (hr : so.replaceHalfEdge orig repl s = some (.updated so', s')) :
    ∃ shells s2, Solid.goShells orig repl so.shells.inner [] false s =
        some (shells, true, s2) ∧ so' = ⟨⟨shells⟩⟩ ∧ s' = s2 := by
  cases hgo : Solid.goShells orig repl so.shells.inner [] false s with
  | none =>
    rw [Solid.replaceHalfEdge, hgo] at hr
    cases hr
  | some out =>
    obtain ⟨shells, hap2, s2⟩ := out
    rw [Solid.replaceHalfEdge] at hr
    simp only [hgo] at hr
    cases hap2 with
    | false =>
      rw [if_neg (by simp)] at hr
      exact ReplaceOutput.noConfusion
        (congrArg Prod.fst (Option.some.inj hr))
    | true =>
      rw [if_pos rfl] at hr
      have hpair := Option.some.inj hr
      refine ⟨shells, s2, rfl, ?_, ?_⟩
      · exact (ReplaceOutput.updated.inj (congrArg Prod.fst hpair)).symm
      · exact (congrArg Prod.snd hpair).symm

/-- C10: when `replace_half_edge` returns `Updated`, the engine itself has
inserted every updated descendant into the store as a side effect: an
updated region's exterior and interior cycle handles are each either the
original handle (carried over, no insertion) or logged as an inserted
cycle; an updated face's region handle is logged as an inserted region
(its surface handle is carried over); an updated shell's face handles are
each the original handle or logged as an inserted face; an updated solid's
shell handles are each the original handle or logged as an inserted shell;
and in each case the returned top-level object is itself not inserted — the
log of its own kind is unchanged by the call (no object ever inserts a
solid, so for the solid receiver only the children clause applies). -/
theorem replaceHalfEdge_insertions_spec (orig : Handle HalfEdge)
    (repl : List (Handle HalfEdge)) (s : Services) (r : Region) (f : Face)
    (sh : Shell) (so : Solid) (r' : Region) (f' : Face) (sh' : Shell)
    (so' : Solid) (sr sf ss sso : Services) :
    (r.replaceHalfEdge orig repl s = some (.updated r', sr) →
      sr.insertedRegions = s.insertedRegions ∧
      (r'.exterior = r.exterior ∨
        (r'.exterior.id, r'.exterior.payload) ∈ sr.insertedCycles) ∧
      ∀ ch ∈ r'.interiors.inner, ch ∈ r.interiors.inner ∨
        (ch.id, ch.payload) ∈ sr.insertedCycles) ∧
    (f.replaceHalfEdge orig repl s = some (.updated f', sf) →
      sf.insertedFaces = s.insertedFaces ∧
      f'.surface = f.surface ∧
      (f'.region.id, f'.region.payload) ∈ sf.insertedRegions) ∧
    (sh.replaceHalfEdge orig repl s = some (.updated sh', ss) →
      ss.insertedShells = s.insertedShells ∧
      ∀ fh ∈ sh'.faces.inner, fh ∈ sh.faces.inner ∨
        (fh.id, fh.payload) ∈ ss.insertedFaces) ∧
    (so.replaceHalfEdge orig repl s = some (.updated so', sso) →
      ∀ shh ∈ so'.shells.inner, shh ∈ so.shells.inner ∨
        (shh.id, shh.payload) ∈ sso.insertedShells) := by
  refine ⟨?_, ?_, ?_, ?_⟩
  · intro hr
    obtain ⟨extOut, s1, ints, s2, hext, hgo, hr', hsr⟩ :=
      region_replace_updated_inv r orig repl s hr
    have hs1 : s1 = s := hcycle_replace_services r.exterior orig repl s hext
    obtain ⟨hmono, hregs, _, _, hmem⟩ :=
      region_goInteriors_inserted orig repl r.interiors.inner []
        extOut.wasUpdated s1 ints true s2 hgo
    cases extOut with
    | original hc =>
      have hhc : hc = r.exterior :=
        hcycle_some_original r.exterior orig repl s hext
      have hsnd : (insertOutCycle (ReplaceOutput.original hc) s2).2 = s2 := rfl
      refine ⟨by rw [hsr, hsnd, hregs, hs1], ?_, ?_⟩
      · left
        rw [hr']
        show (insertOutCycle (ReplaceOutput.original hc) s2).1 = r.exterior
        rw [show (insertOutCycle (ReplaceOutput.original hc) s2).1 = hc
          from rfl, hhc]
      · intro ch hch
        rw [hr'] at hch
        rcases hmem ch hch with hacc | hin | hlog
        · exact absurd hacc (List.not_mem_nil ch)
        · exact Or.inl hin
        · right
          rw [hsr, hsnd]
          exact hlog
    | updated u =>
      have hsnd : (insertOutCycle (ReplaceOutput.updated u) s2).2 =
          (s2.insertCycle u).2 := rfl
      have hcyc : (s2.insertCycle u).2.insertedCycles =
          (s2.nextId, u) :: s2.insertedCycles := rfl
      have hreg2 : (s2.insertCycle u).2.insertedRegions =
          s2.insertedRegions := rfl
      refine ⟨by rw [hsr, hsnd, hreg2, hregs, hs1], ?_, ?_⟩
      · right
        rw [hr', hsr]
        show ((⟨s2.nextId, u⟩ : Handle Cycle).id,
            (⟨s2.nextId, u⟩ : Handle Cycle).payload) ∈
          (insertOutCycle (ReplaceOutput.updated u) s2).2.insertedCycles
        rw [hsnd, hcyc]
        exact List.mem_cons_self _ _
      · intro ch hch
        rw [hr'] at hch
        rcases hmem ch hch with hacc | hin | hlog
        · exact absurd hacc (List.not_mem_nil ch)
        · exact Or.inl hin
        · right
          rw [hsr, hsnd, hcyc]
          exact List.mem_cons_of_mem _ hlog
  · intro hf
    obtain ⟨u, s1, hreg, hf', hsf⟩ := face_replace_updated_inv f orig repl s hf
    have heff := hregion_replace_effects f.region orig repl s hreg
    refine ⟨?_, ?_, ?_⟩
    · rw [hsf]
      show (s1.insertRegion u).2.insertedFaces = s.insertedFaces
      rw [show (s1.insertRegion u).2.insertedFaces = s1.insertedFaces
        from rfl, heff.2.1]
    · rw [hf']
    · rw [hf', hsf]
      show ((⟨s1.nextId, u⟩ : Handle Region).id,
          (⟨s1.nextId, u⟩ : Handle Region).payload) ∈
        (s1.insertRegion u).2.insertedRegions
      show (s1.nextId, u) ∈ (s1.nextId, u) :: s1.insertedRegions
      exact List.mem_cons_self _ _
  · intro hssh
    obtain ⟨faces, s2, hgo, hsh', hss⟩ :=
      shell_replace_updated_inv sh orig repl s hssh
    obtain ⟨_, hshells, hmem⟩ := shell_goFaces_inserted orig repl
      sh.faces.inner [] false s faces true s2 hgo
    refine ⟨by rw [hss, hshells], ?_⟩
    intro fh hfh
    rw [hsh'] at hfh
    rcases hmem fh hfh with hacc | hin | hlog
    · exact absurd hacc (List.not_mem_nil fh)
    · exact Or.inl hin
    · right
      rw [hss]
      exact hlog
  · intro hso
    obtain ⟨shells, s2, hgo, hso', hsso⟩ :=
      solid_replace_updated_inv so orig repl s hso
    obtain ⟨_, hmem⟩ := solid_goShells_inserted orig repl
      so.shells.inner [] false s shells true s2 hgo
    intro shh hshh
    rw [hso'] at hshh
    rcases hmem shh hshh with hacc | hin | hlog
    · exact absurd hacc (List.not_mem_nil shh)
    · exact Or.inl hin
    · right
      rw [hsso]
      exact hlog

/-- C10 witness: the engine is run on a concrete region, face, two-face
shell and one-shell solid containing half-edge identity 1; in each updated
result the updated children are found in the insertion logs, the
carried-over children are the original handles, and the log of the
receiver's own kind is unchanged. -/
theorem replaceHalfEdge_insertions_spec_witness :
    ((⟨1001, [(1000, ⟨⟨[⟨5, ⟨5⟩⟩, ⟨2, ⟨2⟩⟩]⟩⟩)], [], [], []⟩ :
        Services).insertedRegions =
      (⟨1000, [], [], [], []⟩ : Services).insertedRegions ∧
      ((⟨⟨1000, ⟨⟨[⟨5, ⟨5⟩⟩, ⟨2, ⟨2⟩⟩]⟩⟩⟩, ⟨[]⟩, none⟩ : Region).exterior =
          (⟨⟨10, ⟨⟨[⟨1, ⟨1⟩⟩, ⟨2, ⟨2⟩⟩]⟩⟩⟩, ⟨[]⟩, none⟩ : Region).exterior ∨
        ((⟨⟨1000, ⟨⟨[⟨5, ⟨5⟩⟩, ⟨2, ⟨2⟩⟩]⟩⟩⟩, ⟨[]⟩, none⟩ :
            Region).exterior.id,
          (⟨⟨1000, ⟨⟨[⟨5, ⟨5⟩⟩, ⟨2, ⟨2⟩⟩]⟩⟩⟩, ⟨[]⟩, none⟩ :
            Region).exterior.payload) ∈
          (⟨1001, [(1000, ⟨⟨[⟨5, ⟨5⟩⟩, ⟨2, ⟨2⟩⟩]⟩⟩)], [], [], []⟩ :
            Services).insertedCycles) ∧
      ∀ ch ∈ (⟨⟨1000, ⟨⟨[⟨5, ⟨5⟩⟩, ⟨2, ⟨2⟩⟩]⟩⟩⟩, ⟨[]⟩, none⟩ :
          Region).interiors.inner,
        ch ∈ (⟨⟨10, ⟨⟨[⟨1, ⟨1⟩⟩, ⟨2, ⟨2⟩⟩]⟩⟩⟩, ⟨[]⟩, none⟩ :
            Region).interiors.inner ∨
          (ch.id, ch.payload) ∈
            (⟨1001, [(1000, ⟨⟨[⟨5, ⟨5⟩⟩, ⟨2, ⟨2⟩⟩]⟩⟩)], [], [], []⟩ :
              Services).insertedCycles) ∧
    ((⟨1002, [(1000, ⟨⟨[⟨5, ⟨5⟩⟩, ⟨2, ⟨2⟩⟩]⟩⟩)],
        [(1001, ⟨⟨1000, ⟨⟨[⟨5, ⟨5⟩⟩, ⟨2, ⟨2⟩⟩]⟩⟩⟩, ⟨[]⟩, none⟩)], [], []⟩ :
        Services).insertedFaces =
      (⟨1000, [], [], [], []⟩ : Services).insertedFaces ∧
      (⟨⟨30, 0⟩, ⟨1001, ⟨⟨1000, ⟨⟨[⟨5, ⟨5⟩⟩, ⟨2, ⟨2⟩⟩]⟩⟩⟩, ⟨[]⟩, none⟩⟩⟩ :
          Face).surface =
        (⟨⟨30, 0⟩, ⟨20, ⟨⟨10, ⟨⟨[⟨1, ⟨1⟩⟩, ⟨2, ⟨2⟩⟩]⟩⟩⟩, ⟨[]⟩, none⟩⟩⟩ :
          Face).surface ∧
      ((⟨⟨30, 0⟩, ⟨1001, ⟨⟨1000, ⟨⟨[⟨5, ⟨5⟩⟩, ⟨2, ⟨2⟩⟩]⟩⟩⟩, ⟨[]⟩, none⟩⟩⟩ :
          Face).region.id,
        (⟨⟨30, 0⟩, ⟨1001, ⟨⟨1000, ⟨⟨[⟨5, ⟨5⟩⟩, ⟨2, ⟨2⟩⟩]⟩⟩⟩, ⟨[]⟩, none⟩⟩⟩ :
          Face).region.payload) ∈
        (⟨1002, [(1000, ⟨⟨[⟨5, ⟨5⟩⟩, ⟨2, ⟨2⟩⟩]⟩⟩)],
          [(1001, ⟨⟨1000, ⟨⟨[⟨5, ⟨5⟩⟩, ⟨2, ⟨2⟩⟩]⟩⟩⟩, ⟨[]⟩, none⟩)], [], []⟩ :
          Services).insertedRegions) ∧
    ((⟨1003, [(1000, ⟨⟨[⟨5, ⟨5⟩⟩, ⟨2, ⟨2⟩⟩]⟩⟩)],
        [(1001, ⟨⟨1000, ⟨⟨[⟨5, ⟨5⟩⟩, ⟨2, ⟨2⟩⟩]⟩⟩⟩, ⟨[]⟩, none⟩)],
        [(1002, ⟨⟨30, 0⟩,
          ⟨1001, ⟨⟨1000, ⟨⟨[⟨5, ⟨5⟩⟩, ⟨2, ⟨2⟩⟩]⟩⟩⟩, ⟨[]⟩, none⟩⟩⟩)], []⟩ :
        Services).insertedShells =
      (⟨1000, [], [], [], []⟩ : Services).insertedShells ∧
      ∀ fh ∈ (⟨⟨[⟨1002, ⟨⟨30, 0⟩,
            ⟨1001, ⟨⟨1000, ⟨⟨[⟨5, ⟨5⟩⟩, ⟨2, ⟨2⟩⟩]⟩⟩⟩, ⟨[]⟩, none⟩⟩⟩⟩,
          ⟨41, ⟨⟨31, 0⟩, ⟨21, ⟨⟨11, ⟨⟨[⟨3, ⟨3⟩⟩]⟩⟩⟩, ⟨[]⟩, none⟩⟩⟩⟩]⟩⟩ :
          Shell).faces.inner,
        fh ∈ (⟨⟨[⟨40, ⟨⟨30, 0⟩, ⟨20, ⟨⟨10, ⟨⟨[⟨1, ⟨1⟩⟩, ⟨2, ⟨2⟩⟩]⟩⟩⟩, ⟨[]⟩,
              none⟩⟩⟩⟩,
            ⟨41, ⟨⟨31, 0⟩, ⟨21, ⟨⟨11, ⟨⟨[⟨3, ⟨3⟩⟩]⟩⟩⟩, ⟨[]⟩, none⟩⟩⟩⟩]⟩⟩ :
            Shell).faces.inner ∨
          (fh.id, fh.payload) ∈
            (⟨1003, [(1000, ⟨⟨[⟨5, ⟨5⟩⟩, ⟨2, ⟨2⟩⟩]⟩⟩)],
              [(1001, ⟨⟨1000, ⟨⟨[⟨5, ⟨5⟩⟩, ⟨2, ⟨2⟩⟩]⟩⟩⟩, ⟨[]⟩, none⟩)],
              [(1002, ⟨⟨30, 0⟩, ⟨1001, ⟨⟨1000, ⟨⟨[⟨5, ⟨5⟩⟩, ⟨2, ⟨2⟩⟩]⟩⟩⟩,
                ⟨[]⟩, none⟩⟩⟩)], []⟩ :
              Services).insertedFaces) ∧
    (∀ shh ∈ (⟨⟨[⟨1003, ⟨⟨[⟨1002, ⟨⟨30, 0⟩,
            ⟨1001, ⟨⟨1000, ⟨⟨[⟨5, ⟨5⟩⟩, ⟨2, ⟨2⟩⟩]⟩⟩⟩, ⟨[]⟩, none⟩⟩⟩⟩,
          ⟨41, ⟨⟨31, 0⟩, ⟨21, ⟨⟨11, ⟨⟨[⟨3, ⟨3⟩⟩]⟩⟩⟩, ⟨[]⟩,
            none⟩⟩⟩⟩]⟩⟩⟩]⟩⟩ :
          Solid).shells.inner,
      shh ∈ (⟨⟨[⟨60, ⟨⟨[⟨40, ⟨⟨30, 0⟩, ⟨20, ⟨⟨10, ⟨⟨[⟨1, ⟨1⟩⟩,
              ⟨2, ⟨2⟩⟩]⟩⟩⟩, ⟨[]⟩, none⟩⟩⟩⟩,
            ⟨41, ⟨⟨31, 0⟩, ⟨21, ⟨⟨11, ⟨⟨[⟨3, ⟨3⟩⟩]⟩⟩⟩, ⟨[]⟩,
              none⟩⟩⟩⟩]⟩⟩⟩]⟩⟩ :
            Solid).shells.inner ∨
        (shh.id, shh.payload) ∈
          (⟨1004, [(1000, ⟨⟨[⟨5, ⟨5⟩⟩, ⟨2, ⟨2⟩⟩]⟩⟩)],
            [(1001, ⟨⟨1000, ⟨⟨[⟨5, ⟨5⟩⟩, ⟨2, ⟨2⟩⟩]⟩⟩⟩, ⟨[]⟩, none⟩)],
            [(1002, ⟨⟨30, 0⟩, ⟨1001, ⟨⟨1000, ⟨⟨[⟨5, ⟨5⟩⟩, ⟨2, ⟨2⟩⟩]⟩⟩⟩,
              ⟨[]⟩, none⟩⟩⟩)],
            [(1003, ⟨⟨[⟨1002, ⟨⟨30, 0⟩, ⟨1001, ⟨⟨1000, ⟨⟨[⟨5, ⟨5⟩⟩,
                ⟨2, ⟨2⟩⟩]⟩⟩⟩, ⟨[]⟩, none⟩⟩⟩⟩,
              ⟨41, ⟨⟨31, 0⟩, ⟨21, ⟨⟨11, ⟨⟨[⟨3, ⟨3⟩⟩]⟩⟩⟩, ⟨[]⟩,
                none⟩⟩⟩⟩]⟩⟩)]⟩ :
            Services).insertedShells) := by
  have h := replaceHalfEdge_insertions_spec ⟨1, ⟨1⟩⟩ [⟨5, ⟨5⟩⟩]
    ⟨1000, [], [], [], []⟩
    ⟨⟨10, ⟨⟨[⟨1, ⟨1⟩⟩, ⟨2, ⟨2⟩⟩]⟩⟩⟩, ⟨[]⟩, none⟩
    ⟨⟨30, 0⟩, ⟨20, ⟨⟨10, ⟨⟨[⟨1, ⟨1⟩⟩, ⟨2, ⟨2⟩⟩]⟩⟩⟩, ⟨[]⟩, none⟩⟩⟩
    ⟨⟨[⟨40, ⟨⟨30, 0⟩, ⟨20, ⟨⟨10, ⟨⟨[⟨1, ⟨1⟩⟩, ⟨2, ⟨2⟩⟩]⟩⟩⟩, ⟨[]⟩, none⟩⟩⟩⟩,
      ⟨41, ⟨⟨31, 0⟩, ⟨21, ⟨⟨11, ⟨⟨[⟨3, ⟨3⟩⟩]⟩⟩⟩, ⟨[]⟩, none⟩⟩⟩⟩]⟩⟩
    ⟨⟨[⟨60, ⟨⟨[⟨40, ⟨⟨30, 0⟩, ⟨20, ⟨⟨10, ⟨⟨[⟨1, ⟨1⟩⟩, ⟨2, ⟨2⟩⟩]⟩⟩⟩, ⟨[]⟩,
          none⟩⟩⟩⟩,
        ⟨41, ⟨⟨31, 0⟩, ⟨21, ⟨⟨11, ⟨⟨[⟨3, ⟨3⟩⟩]⟩⟩⟩, ⟨[]⟩, none⟩⟩⟩⟩]⟩⟩⟩]⟩⟩
    ⟨⟨1000, ⟨⟨[⟨5, ⟨5⟩⟩, ⟨2, ⟨2⟩⟩]⟩⟩⟩, ⟨[]⟩, none⟩
    ⟨⟨30, 0⟩, ⟨1001, ⟨⟨1000, ⟨⟨[⟨5, ⟨5⟩⟩, ⟨2, ⟨2⟩⟩]⟩⟩⟩, ⟨[]⟩, none⟩⟩⟩
    ⟨⟨[⟨1002, ⟨⟨30, 0⟩, ⟨1001, ⟨⟨1000, ⟨⟨[⟨5, ⟨5⟩⟩, ⟨2, ⟨2⟩⟩]⟩⟩⟩, ⟨[]⟩,
        none⟩⟩⟩⟩,
      ⟨41, ⟨⟨31, 0⟩, ⟨21, ⟨⟨11, ⟨⟨[⟨3, ⟨3⟩⟩]⟩⟩⟩, ⟨[]⟩, none⟩⟩⟩⟩]⟩⟩
    ⟨⟨[⟨1003, ⟨⟨[⟨1002, ⟨⟨30, 0⟩, ⟨1001, ⟨⟨1000, ⟨⟨[⟨5, ⟨5⟩⟩,
          ⟨2, ⟨2⟩⟩]⟩⟩⟩, ⟨[]⟩, none⟩⟩⟩⟩,
        ⟨41, ⟨⟨31, 0⟩, ⟨21, ⟨⟨11, ⟨⟨[⟨3, ⟨3⟩⟩]⟩⟩⟩, ⟨[]⟩, none⟩⟩⟩⟩]⟩⟩⟩]⟩⟩
    ⟨1001, [(1000, ⟨⟨[⟨5, ⟨5⟩⟩, ⟨2, ⟨2⟩⟩]⟩⟩)], [], [], []⟩
    ⟨1002, [(1000, ⟨⟨[⟨5, ⟨5⟩⟩, ⟨2, ⟨2⟩⟩]⟩⟩)],
      [(1001, ⟨⟨1000, ⟨⟨[⟨5, ⟨5⟩⟩, ⟨2, ⟨2⟩⟩]⟩⟩⟩, ⟨[]⟩, none⟩)], [], []⟩
    ⟨1003, [(1000, ⟨⟨[⟨5, ⟨5⟩⟩, ⟨2, ⟨2⟩⟩]⟩⟩)],
      [(1001, ⟨⟨1000, ⟨⟨[⟨5, ⟨5⟩⟩, ⟨2, ⟨2⟩⟩]⟩⟩⟩, ⟨[]⟩, none⟩)],
      [(1002, ⟨⟨30, 0⟩, ⟨1001, ⟨⟨1000, ⟨⟨[⟨5, ⟨5⟩⟩, ⟨2, ⟨2⟩⟩]⟩⟩⟩, ⟨[]⟩,
        none⟩⟩⟩)], []⟩
    ⟨1004, [(1000, ⟨⟨[⟨5, ⟨5⟩⟩, ⟨2, ⟨2⟩⟩]⟩⟩)],
      [(1001, ⟨⟨1000, ⟨⟨[⟨5, ⟨5⟩⟩, ⟨2, ⟨2⟩⟩]⟩⟩⟩, ⟨[]⟩, none⟩)],
      [(1002, ⟨⟨30, 0⟩, ⟨1001, ⟨⟨1000, ⟨⟨[⟨5, ⟨5⟩⟩, ⟨2, ⟨2⟩⟩]⟩⟩⟩, ⟨[]⟩,
        none⟩⟩⟩)],
      [(1003, ⟨⟨[⟨1002, ⟨⟨30, 0⟩, ⟨1001, ⟨⟨1000, ⟨⟨[⟨5, ⟨5⟩⟩,
          ⟨2, ⟨2⟩⟩]⟩⟩⟩, ⟨[]⟩, none⟩⟩⟩⟩,
        ⟨41, ⟨⟨31, 0⟩, ⟨21, ⟨⟨11, ⟨⟨[⟨3, ⟨3⟩⟩]⟩⟩⟩, ⟨[]⟩,
          none⟩⟩⟩⟩]⟩⟩)]⟩
  exact ⟨h.1 (by decide), h.2.1 (by decide), h.2.2.1 (by decide),
    h.2.2.2 (by decide)⟩

/-! ## Lemmas about the approximation engine -/

theorem findEntry_valid (es : List ((Nat × Nat) × FaceApprox))
    (hv : ∀ e ∈ es, e.2 = computeFaceApprox e.1.1 e.1.2) (k : Nat × Nat)
    {v : FaceApprox} (hfind : findEntry es k = some v) :
    v = computeFaceApprox k.1 k.2 := by
  induction es with
  | nil => cases hfind
  | cons e es ih =>
    rw [findEntry] at hfind
    by_cases he : e.1 = k
    · rw [if_pos he] at hfind
      rw [← Option.some.inj hfind, hv e (List.mem_cons_self _ _), he]
    · rw [if_neg he] at hfind
      exact ih (fun e' he' => hv e' (List.mem_cons_of_mem _ he')) hfind

theorem face_approx_result (f : AFace) (tol : Nat) (c : ApproxCache)
    (hv : c.Valid) :
    (f.approxWithCache tol c).1 = computeFaceApprox f.id tol := by
  cases hfind : c.find (f.id, tol) with
  | none => rw [AFace.approxWithCache, hfind]
  | some v =>
    have he : f.approxWithCache tol c = (v, c, 0) := by
      rw [AFace.approxWithCache, hfind]
    rw [he]
    exact findEntry_valid c.entries hv (f.id, tol) hfind

theorem face_approx_valid (f : AFace) (tol : Nat) (c : ApproxCache)
    (hv : c.Valid) : (f.approxWithCache tol c).2.1.Valid := by
  cases hfind : c.find (f.id, tol) with
  | some v =>
    have he : f.approxWithCache tol c = (v, c, 0) := by
      rw [AFace.approxWithCache, hfind]
    rw [he]
    exact hv
  | none =>
    have he : f.approxWithCache tol c = (computeFaceApprox f.id tol,
        ⟨((f.id, tol), computeFaceApprox f.id tol) :: c.entries⟩, 1) := by
      rw [AFace.approxWithCache, hfind]
    rw [he]
    intro e he'
    rcases List.mem_cons.mp he' with rfl | he'
    · rfl
    · exact hv e he'

theorem face_approx_key_self (f : AFace) (tol : Nat) (c : ApproxCache) :
    (f.approxWithCache tol c).2.1.hasKey (f.id, tol) = true := by
  cases hfind : c.find (f.id, tol) with
  | some v =>
    have he : f.approxWithCache tol c = (v, c, 0) := by
      rw [AFace.approxWithCache, hfind]
    rw [he]
    simp [ApproxCache.hasKey, hfind]
  | none =>
    have he : f.approxWithCache tol c = (computeFaceApprox f.id tol,
        ⟨((f.id, tol), computeFaceApprox f.id tol) :: c.entries⟩, 1) := by
      rw [AFace.approxWithCache, hfind]
    rw [he]
    simp [ApproxCache.hasKey, ApproxCache.find, findEntry]

theorem face_approx_key_mono (f : AFace) (tol : Nat) (c : ApproxCache)
    (kk : Nat × Nat) (h : c.hasKey kk = true) :
    (f.approxWithCache tol c).2.1.hasKey kk = true := by
  cases hfind : c.find (f.id, tol) with
  | some v =>
    have he : f.approxWithCache tol c = (v, c, 0) := by
      rw [AFace.approxWithCache, hfind]
    rw [he]
    exact h
  | none =>
    have he : f.approxWithCache tol c = (computeFaceApprox f.id tol,
        ⟨((f.id, tol), computeFaceApprox f.id tol) :: c.entries⟩, 1) := by
      rw [AFace.approxWithCache, hfind]
    rw [he]
    simp only [ApproxCache.hasKey, ApproxCache.find, findEntry] at h ⊢
    by_cases hk : ((f.id, tol) : Nat × Nat) = kk
    · rw [if_pos hk]
      rfl
    · rw [if_neg hk]
      exact h

theorem face_approx_warm (f : AFace) (tol : Nat) (c : ApproxCache)
    (h : c.hasKey (f.id, tol) = true) :
    (f.approxWithCache tol c).2.1 = c ∧ (f.approxWithCache tol c).2.2 = 0 := by
  cases hfind : c.find (f.id, tol) with
  | some v =>
    have he : f.approxWithCache tol c = (v, c, 0) := by
      rw [AFace.approxWithCache, hfind]
    rw [he]
    exact ⟨rfl, rfl⟩
  | none =>
    simp [ApproxCache.hasKey, hfind] at h

theorem shell_goFaces_approx (tol : Nat) (fs : List AFace) :
    ∀ acc c k, ApproxCache.Valid c →
      (AShell.goFaces tol fs acc c k).1 =
        acc ∪ (fs.map (fun f => computeFaceApprox f.id tol)).toFinset ∧
      (AShell.goFaces tol fs acc c k).2.1.Valid := by
  induction fs with
  | nil =>
    intro acc c k hv
    exact ⟨by simp [AShell.goFaces], hv⟩
  | cons f rest ih =>
    intro acc c k hv
    rcases hfa : AFace.approxWithCache f tol c with ⟨v, c1, k1⟩
    have hstep : AShell.goFaces tol (f :: rest) acc c k =
        AShell.goFaces tol rest (insert v acc) c1 (k + k1) := by
      rw [AShell.goFaces, hfa]
    have hv1 : c1.Valid := by
      have := face_approx_valid f tol c hv
      rw [hfa] at this
      exact this
    have hvval : v = computeFaceApprox f.id tol := by
      have := face_approx_result f tol c hv
      rw [hfa] at this
      exact this
    obtain ⟨hres, hval⟩ := ih (insert v acc) c1 (k + k1) hv1
    refine ⟨?_, by rw [hstep]; exact hval⟩
    rw [hstep, hres, hvval, List.map_cons, List.toFinset_cons,
      Finset.insert_union, Finset.union_insert]

theorem shell_goFaces_keys (tol : Nat) (fs : List AFace) :
    ∀ acc c k,
      (∀ kk, ApproxCache.hasKey c kk = true →
        (AShell.goFaces tol fs acc c k).2.1.hasKey kk = true) ∧
      (∀ f ∈ fs,
        (AShell.goFaces tol fs acc c k).2.1.hasKey (f.id, tol) = true) := by
  induction fs with
  | nil =>
    intro acc c k
    exact ⟨fun kk h => h, fun f hf => absurd hf (List.not_mem_nil f)⟩
  | cons f rest ih =>
    intro acc c k
    rcases hfa : AFace.approxWithCache f tol c with ⟨v, c1, k1⟩
    have hstep : AShell.goFaces tol (f :: rest) acc c k =
        AShell.goFaces tol rest (insert v acc) c1 (k + k1) := by
      rw [AShell.goFaces, hfa]
    have hmono1 : ∀ kk, c.hasKey kk = true → c1.hasKey kk = true := by
      intro kk h
      have := face_approx_key_mono f tol c kk h
      rw [hfa] at this
      exact this
    have hself1 : c1.hasKey (f.id, tol) = true := by
      have := face_approx_key_self f tol c
      rw [hfa] at this
      exact this
    obtain ⟨hmono2, hall2⟩ := ih (insert v acc) c1 (k + k1)
    constructor
    · intro kk h
      rw [hstep]
      exact hmono2 kk (hmono1 kk h)
    · intro f' hf'
      rw [hstep]
      rcases List.mem_cons.mp hf' with rfl | hf'
      · exact hmono2 (f'.id, tol) hself1
      · exact hall2 f' hf'

theorem shell_goFaces_warm (tol : Nat) (fs : List AFace) :
    ∀ acc c k, (∀ f ∈ fs, ApproxCache.hasKey c (f.id, tol) = true) →
      (AShell.goFaces tol fs acc c k).2.1 = c ∧
      (AShell.goFaces tol fs acc c k).2.2 = k := by
  induction fs with
  | nil =>
    intro acc c k _
    exact ⟨rfl, rfl⟩
  | cons f rest ih =>
    intro acc c k hw
    rcases hfa : AFace.approxWithCache f tol c with ⟨v, c1, k1⟩
    have hwarm := face_approx_warm f tol c (hw f (List.mem_cons_self _ _))
    have hc1 : c1 = c := by
      have := hwarm.1
      rw [hfa] at this
      exact this
    have hk1 : k1 = 0 := by
      have := hwarm.2
      rw [hfa] at this
      exact this
    have hstep : AShell.goFaces tol (f :: rest) acc c k =
        AShell.goFaces tol rest (insert v acc) c1 (k + k1) := by
      rw [AShell.goFaces, hfa]
    rw [hstep, hc1, hk1, Nat.add_zero]
    exact ih (insert v acc) c k (fun f' hf' => hw f' (List.mem_cons_of_mem _ hf'))

theorem shell_approx_result (sh : AShell) (tol : Nat) (c : ApproxCache)
    (hv : c.Valid) :
    (sh.approxWithCache tol c).1 = sh.specApprox tol ∧
    (sh.approxWithCache tol c).2.1.Valid := by
  obtain ⟨h1, h2⟩ := shell_goFaces_approx tol sh.faces ∅ c 0 hv
  refine ⟨?_, h2⟩
  rw [AShell.approxWithCache, h1, Finset.empty_union]
  rfl

theorem shell_approx_keys (sh : AShell) (tol : Nat) (c : ApproxCache) :
    (∀ kk, ApproxCache.hasKey c kk = true →
      (sh.approxWithCache tol c).2.1.hasKey kk = true) ∧
    ∀ f ∈ sh.faces,
      (sh.approxWithCache tol c).2.1.hasKey (f.id, tol) = true :=
  shell_goFaces_keys tol sh.faces ∅ c 0

theorem shell_approx_warm (sh : AShell) (tol : Nat) (c : ApproxCache)
    (hw : ∀ f ∈ sh.faces, ApproxCache.hasKey c (f.id, tol) = true) :
    (sh.approxWithCache tol c).2.1 = c ∧
    (sh.approxWithCache tol c).2.2 = 0 :=
  shell_goFaces_warm tol sh.faces ∅ c 0 hw

theorem solid_goShells_approx (tol : Nat) (shs : List AShell) :
    ∀ acc c k, ApproxCache.Valid c →
      (ASolid.goShells tol shs acc c k).1 =
        acc ∪ shs.foldr (fun sh t => sh.specApprox tol ∪ t) ∅ ∧
      (ASolid.goShells tol shs acc c k).2.1.Valid := by
  induction shs with
  | nil =>
    intro acc c k hv
    exact ⟨by simp [ASolid.goShells], hv⟩
  | cons sh rest ih =>
    intro acc c k hv
    rcases hsa : sh.approxWithCache tol c with ⟨v, c1, k1⟩
    have hstep : ASolid.goShells tol (sh :: rest) acc c k =
        ASolid.goShells tol rest (acc ∪ v) c1 (k + k1) := by
      rw [ASolid.goShells, hsa]
    have hres := shell_approx_result sh tol c hv
    have hvval : v = sh.specApprox tol := by
      have := hres.1
      rw [hsa] at this
      exact this
    have hv1 : c1.Valid := by
      have := hres.2
      rw [hsa] at this
      exact this
    obtain ⟨h1, h2⟩ := ih (acc ∪ v) c1 (k + k1) hv1
    refine ⟨?_, by rw [hstep]; exact h2⟩
    rw [hstep, h1, hvval, List.foldr_cons, Finset.union_assoc]

theorem solid_goShells_keys (tol : Nat) (shs : List AShell) :
    ∀ acc c k,
      (∀ kk, ApproxCache.hasKey c kk = true →
        (ASolid.goShells tol shs acc c k).2.1.hasKey kk = true) ∧
      (∀ sh ∈ shs, ∀ f ∈ sh.faces,
        (ASolid.goShells tol shs acc c k).2.1.hasKey (f.id, tol) = true) := by
  induction shs with
  | nil =>
    intro acc c k
    exact ⟨fun kk h => h, fun sh hsh => absurd hsh (List.not_mem_nil sh)⟩
  | cons sh rest ih =>
    intro acc c k
    rcases hsa : sh.approxWithCache tol c with ⟨v, c1, k1⟩
    have hstep : ASolid.goShells tol (sh :: rest) acc c k =
        ASolid.goShells tol rest (acc ∪ v) c1 (k + k1) := by
      rw [ASolid.goShells, hsa]
    have hkeys := shell_approx_keys sh tol c
    have hmono1 : ∀ kk, c.hasKey kk = true → c1.hasKey kk = true := by
      intro kk h
      have := hkeys.1 kk h
      rw [hsa] at this
      exact this
    have hself1 : ∀ f ∈ sh.faces, c1.hasKey (f.id, tol) = true := by
      intro f hf
      have := hkeys.2 f hf
      rw [hsa] at this
      exact this
    obtain ⟨hmono2, hall2⟩ := ih (acc ∪ v) c1 (k + k1)
    constructor
    · intro kk h
      rw [hstep]
      exact hmono2 kk (hmono1 kk h)
    · intro sh' hsh' f hf
      rw [hstep]
      rcases List.mem_cons.mp hsh' with rfl | hsh'
      · exact hmono2 (f.id, tol) (hself1 f hf)
      · exact hall2 sh' hsh' f hf

theorem solid_goShells_warm (tol : Nat) (shs : List AShell) :
    ∀ acc c k,
      (∀ sh ∈ shs, ∀ f ∈ sh.faces,
        ApproxCache.hasKey c (f.id, tol) = true) →
      (ASolid.goShells tol shs acc c k).2.1 = c ∧
      (ASolid.goShells tol shs acc c k).2.2 = k := by
  induction shs with
  | nil =>
    intro acc c k _
    exact ⟨rfl, rfl⟩
  | cons sh rest ih =>
    intro acc c k hw
    rcases hsa : sh.approxWithCache tol c with ⟨v, c1, k1⟩
    have hwarm := shell_approx_warm sh tol c
      (hw sh (List.mem_cons_self _ _))
    have hc1 : c1 = c := by
      have := hwarm.1
      rw [hsa] at this
      exact this
    have hk1 : k1 = 0 := by
      have := hwarm.2
      rw [hsa] at this
      exact this
    have hstep : ASolid.goShells tol (sh :: rest) acc c k =
        ASolid.goShells tol rest (acc ∪ v) c1 (k + k1) := by
      rw [ASolid.goShells, hsa]
    rw [hstep, hc1, hk1, Nat.add_zero]
    exact ih (acc ∪ v) c k
      (fun sh' hsh' => hw sh' (List.mem_cons_of_mem _ hsh'))

theorem foldr_union_congr (l : List AShell)
    (g1 g2 : AShell → Finset FaceApprox) (h : ∀ sh ∈ l, g1 sh = g2 sh) :
    l.foldr (fun sh acc => g1 sh ∪ acc) ∅ =
      l.foldr (fun sh acc => g2 sh ∪ acc) ∅ := by
  induction l with
  | nil => rfl
  | cons sh rest ih =>
    rw [List.foldr_cons, List.foldr_cons, h sh (List.mem_cons_self _ _),
      ih (fun sh' hsh' => h sh' (List.mem_cons_of_mem _ hsh'))]

/-- C7: under any valid cache, a solid's approximation is the union of its
shells' approximations, each shell approximated with the same tolerance and
the same cache, merged into one set. -/
theorem solid_approx_union_spec (so : ASolid) (tol : Nat) (c : ApproxCache)
    (hv : ApproxCache.Valid c) :
    (so.approxWithCache tol c).1 =
      so.shells.foldr
        (fun sh acc => (sh.approxWithCache tol c).1 ∪ acc) ∅ := by
  have h1 := (solid_goShells_approx tol so.shells ∅ c 0 hv).1
  have h2 : so.shells.foldr
      (fun sh acc => (sh.approxWithCache tol c).1 ∪ acc) ∅ =
      so.shells.foldr (fun sh t => sh.specApprox tol ∪ t) ∅ :=
    foldr_union_congr so.shells _ _
      (fun sh _ => (shell_approx_result sh tol c hv).1)
  rw [ASolid.approxWithCache, h1, Finset.empty_union, h2]

/-- C7 witness: a two-shell solid with a shared face identity, approximated
from a cold cache. -/
theorem solid_approx_union_spec_witness :
    ((⟨[⟨[⟨1⟩, ⟨2⟩]⟩, ⟨[⟨2⟩, ⟨3⟩]⟩]⟩ : ASolid).approxWithCache 7 ⟨[]⟩).1 =
      [(⟨[⟨1⟩, ⟨2⟩]⟩ : AShell), ⟨[⟨2⟩, ⟨3⟩]⟩].foldr
        (fun sh acc => (sh.approxWithCache 7 ⟨[]⟩).1 ∪ acc) ∅ :=
  solid_approx_union_spec ⟨[⟨[⟨1⟩, ⟨2⟩]⟩, ⟨[⟨2⟩, ⟨3⟩]⟩]⟩ 7 ⟨[]⟩
    (fun e he => absurd he (List.not_mem_nil e))

/-- C9: approximation is a deterministic function of (object identity,
tolerance) given a valid (warm or cold) cache: the first call returns the
pure approximation; a second call against the cache warmed by the first
returns an element-wise equal result, performs zero computations, and
leaves the cache unchanged. -/
theorem approx_cache_idempotent_spec (so : ASolid) (tol : Nat)
    (c : ApproxCache) (hv : ApproxCache.Valid c) :
    (so.approxWithCache tol c).1 = so.specApprox tol ∧
    (so.approxWithCache tol (so.approxWithCache tol c).2.1).1 =
      (so.approxWithCache tol c).1 ∧
    (so.approxWithCache tol (so.approxWithCache tol c).2.1).2.2 = 0 ∧
    (so.approxWithCache tol (so.approxWithCache tol c).2.1).2.1 =
      (so.approxWithCache tol c).2.1 := by
  have h1 := solid_goShells_approx tol so.shells ∅ c 0 hv
  have hres1 : (so.approxWithCache tol c).1 = so.specApprox tol := by
    rw [ASolid.approxWithCache, h1.1, Finset.empty_union]
    rfl
  have hv1 : (so.approxWithCache tol c).2.1.Valid := h1.2
  have hkeys := (solid_goShells_keys tol so.shells ∅ c 0).2
  have h2 := solid_goShells_approx tol so.shells ∅
    (so.approxWithCache tol c).2.1 0 hv1
  have hres2 : (so.approxWithCache tol (so.approxWithCache tol c).2.1).1 =
      so.specApprox tol := by
    rw [ASolid.approxWithCache, h2.1, Finset.empty_union]
    rfl
  have hwarm := solid_goShells_warm tol so.shells ∅
    (so.approxWithCache tol c).2.1 0 hkeys
  exact ⟨hres1, by rw [hres2, hres1], hwarm.2, hwarm.1⟩

/-- C9 witness: a concrete two-shell solid approximated twice under
tolerance 7, starting from the empty cache. -/
theorem approx_cache_idempotent_spec_witness :
    ((⟨[⟨[⟨1⟩, ⟨2⟩]⟩, ⟨[⟨2⟩]⟩]⟩ : ASolid).approxWithCache 7 ⟨[]⟩).1 =
      (⟨[⟨[⟨1⟩, ⟨2⟩]⟩, ⟨[⟨2⟩]⟩]⟩ : ASolid).specApprox 7 ∧
    ((⟨[⟨[⟨1⟩, ⟨2⟩]⟩, ⟨[⟨2⟩]⟩]⟩ : ASolid).approxWithCache 7
        ((⟨[⟨[⟨1⟩, ⟨2⟩]⟩, ⟨[⟨2⟩]⟩]⟩ : ASolid).approxWithCache 7
          ⟨[]⟩).2.1).1 =
      ((⟨[⟨[⟨1⟩, ⟨2⟩]⟩, ⟨[⟨2⟩]⟩]⟩ : ASolid).approxWithCache 7 ⟨[]⟩).1 ∧
    ((⟨[⟨[⟨1⟩, ⟨2⟩]⟩, ⟨[⟨2⟩]⟩]⟩ : ASolid).approxWithCache 7
        ((⟨[⟨[⟨1⟩, ⟨2⟩]⟩, ⟨[⟨2⟩]⟩]⟩ : ASolid).approxWithCache 7
          ⟨[]⟩).2.1).2.2 = 0 ∧
    ((⟨[⟨[⟨1⟩, ⟨2⟩]⟩, ⟨[⟨2⟩]⟩]⟩ : ASolid).approxWithCache 7
        ((⟨[⟨[⟨1⟩, ⟨2⟩]⟩, ⟨[⟨2⟩]⟩]⟩ : ASolid).approxWithCache 7
          ⟨[]⟩).2.1).2.1 =
      ((⟨[⟨[⟨1⟩, ⟨2⟩]⟩, ⟨[⟨2⟩]⟩]⟩ : ASolid).approxWithCache 7 ⟨[]⟩).2.1 :=
  approx_cache_idempotent_spec ⟨[⟨[⟨1⟩, ⟨2⟩]⟩, ⟨[⟨2⟩]⟩]⟩ 7 ⟨[]⟩
    (fun e he => absurd he (List.not_mem_nil e))

/-! ## The sweep theorem -/

theorem foldl_push_map {α β : Type} (g : α → β) (l : List α) :
    ∀ acc : List β, l.foldl (fun acc f => acc ++ [g f]) acc =
      acc ++ l.map g := by
  induction l with
  | nil => intro acc; simp
  | cons x xs ih =>
    intro acc
    rw [List.foldl_cons, ih, List.map_cons]
    simp

/-- C8: sweeping a sketch along a path yields a solid whose shell list is
exactly the face-wise sweep of the sketch's faces, one shell per face, in
the sketch's face iteration order. -/
theorem sketch_sweep_spec (sk : SkSketch) (path : PathVec) :
    (sk.sweep path).shells = sk.faces.map (fun f => f.sweepFace path) ∧
    (sk.sweep path).shells.length = sk.faces.length := by
  have h : (sk.sweep path).shells = sk.faces.map (fun f => f.sweepFace path) := by
    rw [SkSketch.sweep, SwSolid.withShells, SwSolid.new,
      foldl_push_map (fun f => SkFace.sweepFace f path) sk.faces []]
    simp
  exact ⟨h, by rw [h, List.length_map]⟩

end Fornjot
